import Mathlib

/-!
# dbmeta: type mapping and field composition

A shallow embedding of `src/dbmeta/meta.go`: the constants of the Go type names, the
type mapper `sqlTypeToGoType`, the field composer `generateFieldsTypes` and the
declared-length extraction of `columnLength`.

Go strings are Lean `String`s, Go slices are `List`s, `int64` is `Int`.  A
`*sql.ColumnType` is read only through `Name()`, `DatabaseTypeName()` and the first
result of `Nullable()`, so it is the record of these three values.
-/

namespace Dbmeta

/-! ## Data model -/

/-- The three facts `generateFieldsTypes` reads from a `*sql.ColumnType`:
`c.Name()`, `c.DatabaseTypeName()` and the first result of `c.Nullable()`. -/
structure ColumnType where
  name : String
  databaseTypeName : String
  nullable : Bool
  deriving DecidableEq

/-- The Go struct `ColumnLength`. -/
structure ColumnLength where
  ColumnName : String
  Length : Int
  deriving DecidableEq

/-- The functions `generateFieldsTypes` calls that are not defined in `meta.go`:
`strings.ToLower` of the Go library, and `stringifyFirstChar`, `FmtFieldName` and
`Contains` of the package.  The composer is embedded over an arbitrary such
environment, so what is proved of it holds whatever these four functions compute. -/
structure Env where
  ToLower : String → String
  stringifyFirstChar : String → String
  FmtFieldName : String → String
  Contains : List String → String → Bool

/-! ## Tables and constants of `meta.go` -/

/-- The keys of the Go map `commonInitialisms` (every value is `true`). -/
def commonInitialisms : List String :=
  ["API", "ASCII", "CPU", "CSS", "DNS", "EOF", "GUID", "HTML", "HTTP", "HTTPS", "ID", "IP",
   "JSON", "LHS", "QPS", "RAM", "RHS", "RPC", "SLA", "SMTP", "SSH", "TLS", "TTL", "UI",
   "UID", "UUID", "URI", "URL", "UTF8", "VM", "XML"]

/-- The Go slice `intToWordMap`. -/
def intToWordMap : List String :=
  ["zero", "one", "two", "three", "four", "five", "six", "seven", "eight", "nine"]

def golangByteArray : String := "[]byte"
def gureguNullInt : String := "null.Int"
def sqlNullInt : String := "sql.NullInt64"
def golangInt : String := "int"
def golangInt64 : String := "int64"
def gureguNullFloat : String := "null.Float"
def sqlNullFloat : String := "sql.NullFloat64"
def golangFloat : String := "float"
def golangFloat32 : String := "float32"
def golangFloat64 : String := "float64"
def gureguNullString : String := "null.String"
def sqlNullString : String := "sql.NullString"
def gureguNullTime : String := "null.Time"
def golangTime : String := "time.Time"

/-! ## The type mapper -/

/-- The Go function `sqlTypeToGoType`.  The `switch` tries its cases from top to
bottom, each case being a membership test in the listed literals; falling out of
the `switch` returns the empty string. -/
def sqlTypeToGoType (mysqlType : String) (nullable : Bool) (gureguTypes : Bool) : String :=
  if mysqlType ∈ ["tinyint", "int", "smallint", "mediumint"] then
    if nullable then
      if gureguTypes then gureguNullInt else sqlNullInt
    else golangInt
  else if mysqlType ∈ ["bigint"] then
    if nullable then
      if gureguTypes then gureguNullInt else sqlNullInt
    else golangInt64
  else if mysqlType ∈ ["char", "enum", "varchar", "longtext", "mediumtext", "text",
      "tinytext"] then
    if nullable then
      if gureguTypes then gureguNullString else sqlNullString
    else "string"
  else if mysqlType ∈ ["date", "datetime", "time", "timestamp"] then
    if nullable && gureguTypes then gureguNullTime else golangTime
  else if mysqlType ∈ ["decimal", "double"] then
    if nullable then
      if gureguTypes then gureguNullFloat else sqlNullFloat
    else golangFloat64
  else if mysqlType ∈ ["float"] then
    if nullable then
      if gureguTypes then gureguNullFloat else sqlNullFloat
    else golangFloat32
  else if mysqlType ∈ ["binary", "blob", "longblob", "mediumblob", "varbinary"] then
    golangByteArray
  else ""

/-- The 24 literals of the `case` lines of `sqlTypeToGoType`, in source order. -/
def supportedTypes : List String :=
  ["tinyint", "int", "smallint", "mediumint", "bigint", "char", "enum", "varchar",
   "longtext", "mediumtext", "text", "tinytext", "date", "datetime", "time", "timestamp",
   "decimal", "double", "float", "binary", "blob", "longblob", "mediumblob", "varbinary"]

/-! ## The field composer -/

/-- The verb `%d` of `fmt.Sprintf` on an `int64`: decimal digits, with a leading
minus sign for a negative number. -/
def formatInt : Int → String
  | Int.ofNat m => Nat.repr m
  | Int.negSucc m => "-" ++ Nat.repr (m + 1)

/-- `strings.Join(elems, sep)`. -/
def join (elems : List String) (sep : String) : String :=
  sep.intercalate elems

/-- The inner loop over `columnLengths` (lines 217-221): every entry whose
`ColumnName` equals the lower-cased key appends one `max=` rule; the loop has no
`break`. -/
def appendMaxRules (lowerKey : String) (columnLengths : List ColumnLength)
    (validateRules : List String) : List String :=
  columnLengths.foldl
    (fun rules colInfo =>
      if colInfo.ColumnName = lowerKey then rules ++ ["max=" ++ formatInt colInfo.Length]
      else rules)
    validateRules

/-- The slice `validateRules` built at lines 210-222 for the column `c`. -/
def validateRules (E : Env) (columnLengths : List ColumnLength) (c : ColumnType) :
    List String :=
  let nullable := c.nullable
  let colType := c.databaseTypeName
  let key := c.name
  let rules : List String := []
  let rules :=
    if !nullable then
      if E.ToLower key ≠ "created_at" ∧ E.ToLower key ≠ "updated_at" then
        rules ++ ["required"]
      else rules
    else rules
  let rules :=
    if E.ToLower colType = "varchar" then
      appendMaxRules (E.ToLower key) columnLengths rules
    else rules
  rules

/-- The slice `annotations` built at lines 201-227 for the column `c`. -/
def annotations (E : Env) (primaryKeys : List String) (columnLengths : List ColumnLength)
    ( jsonAnnotation : Bool) ( gormAnnotation : Bool) ( validateV9Annotation : Bool)
    (c : ColumnType) : List String :=
  let key := c.name
  let anns : List String := []
  let anns :=
    if gormAnnotation = true then
      if E.Contains primaryKeys (E.ToLower key) then
        anns ++ ["gorm:\"column:" ++ key ++ ";primary_key\""]
      else
        anns ++ ["gorm:\"column:" ++ key ++ "\""]
    else anns
  let anns :=
    if validateV9Annotation = true then
      anns ++ ["validate:\"" ++ join (validateRules E columnLengths c) "," ++ "\""]
    else anns
  let anns :=
    if jsonAnnotation = true then
      anns ++ ["json:\"" ++ key ++ "\""]
    else anns
  anns

/-- The string assigned to `field` at lines 228-238 for a column that is not skipped. -/
def columnField (E : Env) (primaryKeys : List String) (columnLengths : List ColumnLength)
    ( jsonAnnotation : Bool) ( gormAnnotation : Bool) (gureguTypes : Bool)
    ( validateV9Annotation : Bool) (c : ColumnType) : String :=
  let valueType := sqlTypeToGoType (E.ToLower c.databaseTypeName) c.nullable gureguTypes
  let fieldName := E.FmtFieldName (E.stringifyFirstChar c.name)
  let anns := annotations E primaryKeys columnLengths jsonAnnotation gormAnnotation
    validateV9Annotation c
  if 0 < anns.length then
    fieldName ++ " " ++ valueType ++ " `" ++ join anns " " ++ "`"
  else
    fieldName ++ " " ++ valueType

/-- The two variables that live across iterations of the loop of
`generateFieldsTypes`: the result slice `fields` and the string `field`, which is
declared outside the loop. -/
structure LoopState where
  fields : List String
  field : String
  deriving DecidableEq

/-- One iteration of the `for _, c := range columns` loop (lines 191-242). An
unknown type is the `continue`: the state is left as it is. -/
def loopBody (E : Env) (primaryKeys : List String) (columnLengths : List ColumnLength)
    ( jsonAnnotation : Bool) ( gormAnnotation : Bool) (gureguTypes : Bool)
    ( validateV9Annotation : Bool) (st : LoopState) (c : ColumnType) : LoopState :=
  let valueType := sqlTypeToGoType (E.ToLower c.databaseTypeName) c.nullable gureguTypes
  if valueType = "" then st
  else
    let field := columnField E primaryKeys columnLengths jsonAnnotation gormAnnotation
      gureguTypes validateV9Annotation c
    { fields := st.fields ++ [field], field := field }

/-- The Go function `generateFieldsTypes` (the arguments `db` and `depth` are not
used by its body). -/
def generateFieldsTypes (E : Env) (columns : List ColumnType) (primaryKeys : List String)
    (columnLengths : List ColumnLength) ( jsonAnnotation : Bool) ( gormAnnotation : Bool)
    (gureguTypes : Bool) ( validateV9Annotation : Bool) : List String :=
  (columns.foldl
    (loopBody E primaryKeys columnLengths jsonAnnotation gormAnnotation gureguTypes
      validateV9Annotation)
    { fields := [], field := "" }).fields

/-! ## A concrete environment for evaluating examples -/

/-- The Go library function `strings.ToLower` on ASCII text: the letters `A`-`Z`
go to `a`-`z`, every other character stays. -/
def asciiToLower (s : String) : String :=
  String.mk (s.data.map Char.toLower)

/-- The upper-casing of the Go library on which the identifier normaliser relies:
`unicode.ToUpper` and `unicode.IsUpper`.  They follow the Unicode tables, so they
are kept abstract, as `strings.ToLower` is. -/
structure Casing where
  ToUpper : Char → Char
  IsUpper : Char → Bool

/-- The ASCII upper-casing: the letters `a`-`z` go to `A`-`Z`, every other
character stays, and the upper-case letters are `A`-`Z`.  The library upper-casing
does the same on ASCII text. -/
def asciiCasing : Casing where
  ToUpper := Char.toUpper
  IsUpper := Char.isUpper

/-- What the results below use of the library upper-casing: on an ASCII character
it is the ASCII upper-casing, the letters `A`-`Z` are upper-case letters, and no
upper-case letter is a decimal digit or the underscore. -/
def regularCasing (K : Casing) : Prop :=
  (∀ c : Char, c.toNat < 128 → K.ToUpper c = c.toUpper)
  ∧ (∀ c : Char, c.isUpper = true → K.IsUpper c = true)
  ∧ (∀ u : Char, K.IsUpper u = true → u.isDigit = false ∧ u ≠ '_')

/-- Modelled from the spec: `stringifyFirstChar` is called by `generateFieldsTypes`
but defined outside `meta.go`.  Section 4.1, steps 1-2: an empty name is returned
unchanged; a leading decimal digit is replaced by its English word from
`intToWordMap`, as a token of its own (`2fa_code` becomes `two_fa_code`). -/
def stringifyFirstChar (str : String) : String :=
  match str.data with
  | [] => str
  | c :: rest =>
    if c.isDigit then intToWordMap.getD (c.toNat - 48) "" ++ "_" ++ String.mk rest
    else str

/-- Splitting on underscores, empty tokens dropped; `cur` is the token being read,
in reverse. -/
def splitTokens : List Char → List Char → List String
  | [], cur => if cur = [] then [] else [String.mk cur.reverse]
  | c :: cs, cur =>
    if c = '_' then
      if cur = [] then splitTokens cs [] else String.mk cur.reverse :: splitTokens cs []
    else splitTokens cs (c :: cur)

/-- Modelled from the spec: one token of a field name, section 4.1, step 4, under
the upper-casing `K`: the upper-cased token when that is an initialism, else the
token with its first letter forced to upper case. -/
def fmtTokenWith (K : Casing) (tok : String) : String :=
  if String.mk (tok.data.map K.ToUpper) ∈ commonInitialisms then
    String.mk (tok.data.map K.ToUpper)
  else
    match tok.data with
    | [] => tok
    | c :: rest => String.mk (K.ToUpper c :: rest)

/-- Modelled from the spec: `FmtFieldName` is called by `generateFieldsTypes` but
defined outside `meta.go`.  Section 4.1, steps 3-6, under the upper-casing `K`:
split on underscores dropping empty tokens, render each token (an initialism in
upper case, any other token with its first letter in upper case), and
concatenate. -/
def FmtFieldNameWith (K : Casing) (s : String) : String :=
  String.join ((splitTokens s.data []).map (fmtTokenWith K))

/-- The token rendering `fmtTokenWith` under the ASCII upper-casing, for evaluating
ASCII examples. -/
def fmtToken (tok : String) : String :=
  fmtTokenWith asciiCasing tok

/-- Modelled from the spec: `FmtFieldName` of section 4.1 under the ASCII
upper-casing, that is `FmtFieldNameWith asciiCasing`, for evaluating ASCII
examples. -/
def FmtFieldName (s : String) : String :=
  FmtFieldNameWith asciiCasing s

/-- Modelled from the spec: `Contains` is called by `generateFieldsTypes` but
defined outside `meta.go`.  Section 4.3, step 3: the column's name appears
case-insensitively in the supplied primary-key list.  The caller passes the name in
lower case, so a member of the list matches when its lower-cased form is the item. -/
def Contains (list : List String) (item : String) : Bool :=
  list.any (fun p => asciiToLower p == item)

/-- The environment used to evaluate the composer on ASCII examples. -/
def asciiEnv : Env where
  ToLower := asciiToLower
  stringifyFirstChar := stringifyFirstChar
  FmtFieldName := FmtFieldName
  Contains := Contains

/-- The three columns of the end-to-end scenario. -/
def scenarioColumns : List ColumnType :=
  [{ name := "id", databaseTypeName := "INT", nullable := false },
   { name := "email", databaseTypeName := "VARCHAR", nullable := false },
   { name := "created_at", databaseTypeName := "DATETIME", nullable := false }]

/-! ## The declaration in the words of the specification -/

/-- Whether the column is emitted: the negation of the `continue` guard of line 196. -/
def emitted (E : Env) (gureguTypes : Bool) (c : ColumnType) : Bool :=
  decide (sqlTypeToGoType (E.ToLower c.databaseTypeName) c.nullable gureguTypes ≠ "")

/-- The ORM clause of a column (lines 203-207). -/
def gormClause (E : Env) (primaryKeys : List String) (c : ColumnType) : String :=
  if E.Contains primaryKeys (E.ToLower c.name) then
    "gorm:\"column:" ++ c.name ++ ";primary_key\""
  else
    "gorm:\"column:" ++ c.name ++ "\""

/-- The validation clause of a column (line 223). -/
def validateClause (E : Env) (columnLengths : List ColumnLength) (c : ColumnType) : String :=
  "validate:\"" ++ join (validateRules E columnLengths c) "," ++ "\""

/-- The serialization clause of a column (line 226). -/
def jsonClause (c : ColumnType) : String :=
  "json:\"" ++ c.name ++ "\""

/-- The declaration as the specification describes it: the field name, a space, the
value type and then, when a toggle is on, a space and the clauses whose toggle is on,
in the order ORM, validation, serialization, joined by one space and wrapped in
backticks. -/
def declarationSpec (E : Env) (primaryKeys : List String) (columnLengths : List ColumnLength)
    ( jsonAnnotation : Bool) ( gormAnnotation : Bool) (gureguTypes : Bool)
    ( validateV9Annotation : Bool) (c : ColumnType) : String :=
  let clauses : List String :=
    (if gormAnnotation then [gormClause E primaryKeys c] else [])
    ++ (if validateV9Annotation then [validateClause E columnLengths c] else [])
    ++ (if jsonAnnotation then [jsonClause c] else [])
  E.FmtFieldName (E.stringifyFirstChar c.name) ++ " "
    ++ sqlTypeToGoType (E.ToLower c.databaseTypeName) c.nullable gureguTypes
    ++ (if gormAnnotation || validateV9Annotation || jsonAnnotation then
          " `" ++ " ".intercalate clauses ++ "`"
        else "")

/-- The backtick character, U+0060. -/
def backtick : Char := Char.ofNat 96

/-! ## The declared-length extraction of `columnLength` -/

/-- `strings.Index(s, sub)` for a one-character `sub`: the position of its first
occurrence in `s`, or -1 when it does not occur.  Go counts positions in bytes and
this embedding in characters; the two agree on which of two positions comes first
and on the text lying between them, which is all `columnLength` uses. -/
def Index (s : String) (c : Char) : Int :=
  if c ∈ s.data then (s.data.indexOf c : Nat) else -1

/-- `strings.LastIndex(s, sub)` for a one-character `sub`: the position of its last
occurrence in `s`, or -1 when it does not occur. -/
def LastIndex (s : String) (c : Char) : Int :=
  if c ∈ s.data then ((s.data.length - 1 - s.data.reverse.indexOf c : Nat) : Int) else -1

/-- The Go slice expression `s[lo:hi]`: defined when `0 ≤ lo ≤ hi ≤ len(s)`; any
other bounds are a run-time panic, rendered as `none`. -/
def slice (s : String) (lo hi : Int) : Option String :=
  if 0 ≤ lo ∧ lo ≤ hi ∧ hi ≤ (s.data.length : Int) then
    some (String.mk ((s.data.drop lo.toNat).take (hi - lo).toNat))
  else none

/-- The two error values of the Go package `strconv`: `syn` is `ErrSyntax` and
`range` is `ErrRange`. -/
inductive NumError where
  | syn : NumError
  | range : NumError
  deriving DecidableEq

/-- The loop of `strconv.ParseUint(s, 10, 64)` over the characters of `s`, with `n`
the number read so far.  A character that is not a decimal digit ends the loop with
value 0 and a syntax error; a digit that would take the number past `2^64 - 1` ends
it at once with value `2^64 - 1` and a range error, whatever follows. -/
def parseDigits : List Char → Nat → Nat × Option NumError
  | [], n => (n, none)
  | c :: cs, n =>
    if c.isDigit then
      if (2 ^ 64 - 1) / 10 + 1 ≤ n then (2 ^ 64 - 1, some NumError.range)
      else if 2 ^ 64 - 1 < n * 10 + (c.toNat - 48) then (2 ^ 64 - 1, some NumError.range)
      else parseDigits cs (n * 10 + (c.toNat - 48))
    else (0, some NumError.syn)

/-- `strconv.ParseUint(s, 10, 64)`: the empty string is a syntax error. -/
def ParseUint (s : List Char) : Nat × Option NumError :=
  if s = [] then (0, some NumError.syn) else parseDigits s 0

/-- `strconv.ParseInt(s, 10, 64)` as the pair of its two results, the value and the
error (`none` is nil).  The empty string is a syntax error; a leading sign is picked
off and the rest goes to `ParseUint`, whose syntax error is returned with value 0;
a number outside the `int64` range is a range error with the nearest bound as
value. -/
def ParseInt (s : String) : Int × Option NumError :=
  match s.data with
  | [] => (0, some NumError.syn)
  | c :: rest =>
    let neg : Bool := decide (c = '-')
    let body : List Char := if c = '+' ∨ c = '-' then rest else c :: rest
    let r := ParseUint body
    if r.2 = some NumError.syn then (0, some NumError.syn)
    else if neg = false ∧ 2 ^ 63 ≤ r.1 then (2 ^ 63 - 1, some NumError.range)
    else if neg = true ∧ 2 ^ 63 < r.1 then (-(2 ^ 63), some NumError.range)
    else (if neg then -(r.1 : Int) else (r.1 : Int), none)

/-- The three ways lines 170-175 can end for one catalog type string. -/
inductive Extraction where
  | noFact : Extraction
  | abort : Extraction
  | length : Int → Extraction
  deriving DecidableEq

/-- Lines 170-175 of `columnLength` on the catalog type string `columnType`: the
`break` of the guard is `noFact`, a panic of the slice expression is `abort`, and
otherwise the first result of `ParseInt` is the length, its error being discarded. -/
def extractLength (columnType : String) : Extraction :=
  let startIndex := Index columnType '(' + 1
  let lastIndex := LastIndex columnType ')'
  if startIndex < 0 ∨ lastIndex < 0 then Extraction.noFact
  else
    match slice columnType startIndex lastIndex with
    | none => Extraction.abort
    | some sub => Extraction.length (ParseInt sub).1

/-- The inner loop `for _, c := range cols` of `columnLength` (lines 167-179) for
the catalog row `(columnName, columnType)`; `acc` is the slice `columnLengths` built
so far and `none` is a panic. -/
def columnLengthRow (E : Env) (columnName columnType : String) :
    List ColumnType → List ColumnLength → Option (List ColumnLength)
  | [], acc => some acc
  | c :: cs, acc =>
    let columnNameLower := E.ToLower columnName
    if E.ToLower c.name = columnNameLower then
      match extractLength columnType with
      | Extraction.noFact => some acc
      | Extraction.abort => none
      | Extraction.length len =>
        columnLengthRow E columnName columnType cs (acc ++ [⟨columnNameLower, len⟩])
    else columnLengthRow E columnName columnType cs acc

/-- The outer loop `for rows.Next()` of `columnLength` over the catalog rows, each a
pair of a column name and a column type. -/
def columnLengthRows (E : Env) (cols : List ColumnType) :
    List (String × String) → List ColumnLength → Option (List ColumnLength)
  | [], acc => some acc
  | row :: rows, acc =>
    match columnLengthRow E row.1 row.2 cols acc with
    | none => none
    | some acc2 => columnLengthRows E cols rows acc2

/-- The Go function `columnLength`, on the rows its catalog query returns. -/
def columnLength (E : Env) (rows : List (String × String)) (cols : List ColumnType) :
    Option (List ColumnLength) :=
  columnLengthRows E cols rows []

/-- The value of a string of decimal digits, most significant digit first. -/
def decimalValue (ds : List Char) : Nat :=
  ds.foldl (fun acc c => acc * 10 + (c.toNat - 48)) 0

/-- The number of introspected columns whose lower-cased name is the lower-cased
name of the catalog row. -/
def matchCount (E : Env) (cols : List ColumnType) (columnName : String) : Nat :=
  cols.countP (fun c => decide (E.ToLower c.name = E.ToLower columnName))

/-- The facts a catalog row is to add to the result of `columnLength`: when the
extraction on its type string yields a length, one fact of the lower-cased column
name and that length for each introspected column of that name, and none
otherwise. -/
def rowFacts (E : Env) (cols : List ColumnType) (row : String × String) :
    List ColumnLength :=
  match extractLength row.2 with
  | Extraction.length n => List.replicate (matchCount E cols row.1) ⟨E.ToLower row.1, n⟩
  | Extraction.noFact => []
  | Extraction.abort => []

/-! ## Shared lemmas -/

theorem sqlTypeToGoType_eq_empty_iff (s : String) (n g : Bool) :
    sqlTypeToGoType s n g = "" ↔ s ∉ supportedTypes := by
  unfold sqlTypeToGoType supportedTypes
  simp only [List.mem_cons, List.mem_singleton, List.not_mem_nil, or_false]
  constructor
  · intro h
    split_ifs at h <;> first | (exact absurd h (by decide)) | (simp_all)
  · intro h
    simp only [not_or] at h
    simp [h]

theorem sqlTypeToGoType_no_backtick (s : String) (n g : Bool) :
    backtick ∉ (sqlTypeToGoType s n g).data := by
  unfold sqlTypeToGoType
  split_ifs <;> decide

theorem foldl_loopBody_fields (E : Env) (pk : List String) (cl : List ColumnLength)
    (j g gt v : Bool) (columns : List ColumnType) (st : LoopState) :
    (columns.foldl (loopBody E pk cl j g gt v) st).fields
      = st.fields ++ (columns.filter (emitted E gt)).map (columnField E pk cl j g gt v) := by
  induction columns generalizing st with
  | nil => simp
  | cons c cs ih =>
    rw [List.foldl_cons, ih]
    by_cases h : sqlTypeToGoType (E.ToLower c.databaseTypeName) c.nullable gt = ""
    · simp [loopBody, emitted, h]
    · simp [loopBody, emitted, h]

theorem generateFieldsTypes_eq_map_filter (E : Env) (pk : List String)
    (cl : List ColumnLength) (j g gt v : Bool) (columns : List ColumnType) :
    generateFieldsTypes E columns pk cl j g gt v
      = (columns.filter (emitted E gt)).map (columnField E pk cl j g gt v) := by
  unfold generateFieldsTypes
  rw [foldl_loopBody_fields]
  simp

theorem emitted_eq_supported (E : Env) (gt : Bool) (c : ColumnType) :
    emitted E gt c = decide (E.ToLower c.databaseTypeName ∈ supportedTypes) := by
  unfold emitted
  by_cases h : E.ToLower c.databaseTypeName ∈ supportedTypes
  · have := (sqlTypeToGoType_eq_empty_iff (E.ToLower c.databaseTypeName) c.nullable gt).not.2
      (not_not.2 h)
    simp [h, this]
  · have := (sqlTypeToGoType_eq_empty_iff (E.ToLower c.databaseTypeName) c.nullable gt).2 h
    simp [h, this]

theorem appendMaxRules_eq (k : String) (cl : List ColumnLength) (rules : List String) :
    appendMaxRules k cl rules
      = rules ++ (cl.filter (fun ci => decide (ci.ColumnName = k))).map
          (fun ci => "max=" ++ formatInt ci.Length) := by
  unfold appendMaxRules
  induction cl generalizing rules with
  | nil => simp
  | cons ci cs ih =>
    rw [List.foldl_cons, ih]
    by_cases h : ci.ColumnName = k
    · simp [h]
    · simp [h]

theorem validateRules_eq (E : Env) (cl : List ColumnLength) (c : ColumnType) :
    validateRules E cl c
      = (if c.nullable = false ∧ E.ToLower c.name ≠ "created_at"
            ∧ E.ToLower c.name ≠ "updated_at" then ["required"] else [])
        ++ (if E.ToLower c.databaseTypeName = "varchar" then
              (cl.filter (fun ci => decide (ci.ColumnName = E.ToLower c.name))).map
                (fun ci => "max=" ++ formatInt ci.Length)
            else []) := by
  unfold validateRules
  simp only [appendMaxRules_eq]
  cases hn : c.nullable <;> by_cases h1 : E.ToLower c.name = "created_at" <;>
    by_cases h2 : E.ToLower c.name = "updated_at" <;>
    by_cases h3 : E.ToLower c.databaseTypeName = "varchar" <;> simp [h1, h2, h3]

theorem required_ne_max (x : String) : "required" ≠ "max=" ++ x := by
  intro h
  have h2 := congrArg (fun s => s.data.head?) h
  simp [String.data_append] at h2

theorem columnField_eq_declarationSpec (E : Env) (pk : List String)
    (cl : List ColumnLength) (j g gt v : Bool) (c : ColumnType) :
    columnField E pk cl j g gt v c = declarationSpec E pk cl j g gt v c := by
  unfold columnField declarationSpec annotations gormClause validateClause jsonClause join
  cases j <;> cases g <;> cases v <;>
    by_cases h : E.Contains pk (E.ToLower c.name) = true <;>
    simp [h, String.intercalate, String.intercalate.go, String.append_assoc]

/-! ## The type mapper: results -/

/-- C1: `sqlTypeToGoType` returns the empty string exactly for the source types
outside the 24 supported names, whatever the nullable flag and the style; `json` is
such a type, and the supported names are 24 distinct strings. -/
theorem sqlTypeToGoType_empty_iff_unsupported :
    (∀ (s : String) (nullable gureguTypes : Bool),
      sqlTypeToGoType s nullable gureguTypes = "" ↔ s ∉ supportedTypes)
    ∧ supportedTypes.length = 24 ∧ supportedTypes.Nodup
    ∧ "json" ∉ supportedTypes
    ∧ (∀ nullable gureguTypes : Bool, sqlTypeToGoType "json" nullable gureguTypes = "") := by
  have key := sqlTypeToGoType_eq_empty_iff
  refine ⟨key, by decide, by decide, by decide, ?_⟩
  intro n g
  exact (key "json" n g).2 (by decide)

/-- C2: for a nullable column the wrapper is chosen by the style: the five integer
types give `null.Int` (style A) and `sql.NullInt64` (style B), the seven text types
give `null.String` and `sql.NullString`, the three floating types give `null.Float`
and `sql.NullFloat64`. -/
theorem sqlTypeToGoType_nullable_wrapper (s : String) :
    (s ∈ ["tinyint", "int", "smallint", "mediumint", "bigint"] →
      sqlTypeToGoType s true true = "null.Int"
      ∧ sqlTypeToGoType s true false = "sql.NullInt64")
    ∧ (s ∈ ["char", "enum", "varchar", "longtext", "mediumtext", "text", "tinytext"] →
      sqlTypeToGoType s true true = "null.String"
      ∧ sqlTypeToGoType s true false = "sql.NullString")
    ∧ (s ∈ ["decimal", "double", "float"] →
      sqlTypeToGoType s true true = "null.Float"
      ∧ sqlTypeToGoType s true false = "sql.NullFloat64") := by
  refine ⟨?_, ?_, ?_⟩
  · exact (by decide : ∀ t ∈ ["tinyint", "int", "smallint", "mediumint", "bigint"],
      sqlTypeToGoType t true true = "null.Int"
      ∧ sqlTypeToGoType t true false = "sql.NullInt64") s
  · exact (by decide : ∀ t ∈ ["char", "enum", "varchar", "longtext", "mediumtext", "text",
        "tinytext"],
      sqlTypeToGoType t true true = "null.String"
      ∧ sqlTypeToGoType t true false = "sql.NullString") s
  · exact (by decide : ∀ t ∈ ["decimal", "double", "float"],
      sqlTypeToGoType t true true = "null.Float"
      ∧ sqlTypeToGoType t true false = "sql.NullFloat64") s

/-- Witness of C2 at `bigint`, `varchar` and `double`. -/
theorem sqlTypeToGoType_nullable_wrapper_witness :
    (sqlTypeToGoType "bigint" true true = "null.Int"
      ∧ sqlTypeToGoType "bigint" true false = "sql.NullInt64")
    ∧ (sqlTypeToGoType "varchar" true true = "null.String"
      ∧ sqlTypeToGoType "varchar" true false = "sql.NullString")
    ∧ (sqlTypeToGoType "double" true true = "null.Float"
      ∧ sqlTypeToGoType "double" true false = "sql.NullFloat64") :=
  ⟨(sqlTypeToGoType_nullable_wrapper "bigint").1 (by decide),
   (sqlTypeToGoType_nullable_wrapper "varchar").2.1 (by decide),
   (sqlTypeToGoType_nullable_wrapper "double").2.2 (by decide)⟩

/-- C3: for a non-nullable column the result is the plain type of the category and
is the same under both styles: `int64` for bigint, `string` for the seven text
types, `time.Time` for the four date and time types, `float64` for decimal and
double, `float32` for float. -/
theorem sqlTypeToGoType_not_nullable_plain (s : String) (gureguTypes : Bool) :
    sqlTypeToGoType s false gureguTypes = sqlTypeToGoType s false (!gureguTypes)
    ∧ (s = "bigint" → sqlTypeToGoType s false gureguTypes = "int64")
    ∧ (s ∈ ["char", "enum", "varchar", "longtext", "mediumtext", "text", "tinytext"] →
      sqlTypeToGoType s false gureguTypes = "string")
    ∧ (s ∈ ["date", "datetime", "time", "timestamp"] →
      sqlTypeToGoType s false gureguTypes = "time.Time")
    ∧ (s ∈ ["decimal", "double"] → sqlTypeToGoType s false gureguTypes = "float64")
    ∧ (s = "float" → sqlTypeToGoType s false gureguTypes = "float32") := by
  refine ⟨?_, ?_, ?_, ?_, ?_, ?_⟩
  · unfold sqlTypeToGoType
    simp
  · intro h
    subst h
    cases gureguTypes <;> decide
  · exact (by decide : ∀ g : Bool, ∀ t ∈ ["char", "enum", "varchar", "longtext",
        "mediumtext", "text", "tinytext"],
      sqlTypeToGoType t false g = "string") gureguTypes s
  · exact (by decide : ∀ g : Bool, ∀ t ∈ ["date", "datetime", "time", "timestamp"],
      sqlTypeToGoType t false g = "time.Time") gureguTypes s
  · exact (by decide : ∀ g : Bool, ∀ t ∈ ["decimal", "double"],
      sqlTypeToGoType t false g = "float64") gureguTypes s
  · intro h
    subst h
    cases gureguTypes <;> decide

/-- Witness of C3 at `bigint`, `varchar`, `datetime`, `decimal` and `float`. -/
theorem sqlTypeToGoType_not_nullable_plain_witness :
    sqlTypeToGoType "bigint" false true = "int64"
    ∧ sqlTypeToGoType "varchar" false false = "string"
    ∧ sqlTypeToGoType "datetime" false true = "time.Time"
    ∧ sqlTypeToGoType "decimal" false false = "float64"
    ∧ sqlTypeToGoType "float" false true = "float32" :=
  ⟨(sqlTypeToGoType_not_nullable_plain "bigint" true).2.1 rfl,
   (sqlTypeToGoType_not_nullable_plain "varchar" false).2.2.1 (by decide),
   (sqlTypeToGoType_not_nullable_plain "datetime" true).2.2.2.1 (by decide),
   (sqlTypeToGoType_not_nullable_plain "decimal" false).2.2.2.2.1 (by decide),
   (sqlTypeToGoType_not_nullable_plain "float" true).2.2.2.2.2 rfl⟩

/-- C4, as stated, fails: a non-nullable `tinyint` column is mapped to `int`, which is
not the 32-bit integer type name `int32`. -/
theorem sqlTypeToGoType_tinyint_not_int32 :
    sqlTypeToGoType "tinyint" false false = "int"
    ∧ sqlTypeToGoType "tinyint" false false ≠ "int32" := by
  decide

/-- C4, amended: for tinyint, smallint, mediumint and int with nullable = false the
result is the constant `golangInt`, that is `int`, under both styles, and it differs
from the `int64` returned for bigint. -/
theorem sqlTypeToGoType_small_int_plain (s : String) (gureguTypes : Bool)
    (hs : s ∈ ["tinyint", "smallint", "mediumint", "int"]) :
    sqlTypeToGoType s false gureguTypes = golangInt
    ∧ golangInt = "int"
    ∧ sqlTypeToGoType "bigint" false gureguTypes = "int64"
    ∧ sqlTypeToGoType s false gureguTypes ≠ sqlTypeToGoType "bigint" false gureguTypes := by
  exact (by decide : ∀ g : Bool, ∀ t ∈ ["tinyint", "smallint", "mediumint", "int"],
    sqlTypeToGoType t false g = golangInt
    ∧ golangInt = "int"
    ∧ sqlTypeToGoType "bigint" false g = "int64"
    ∧ sqlTypeToGoType t false g ≠ sqlTypeToGoType "bigint" false g) gureguTypes s hs

/-- Witness of the amended C4 at `mediumint`. -/
theorem sqlTypeToGoType_small_int_plain_witness :
    "mediumint" ∈ ["tinyint", "smallint", "mediumint", "int"]
    ∧ sqlTypeToGoType "mediumint" false true = golangInt
    ∧ golangInt = "int"
    ∧ sqlTypeToGoType "bigint" false true = "int64"
    ∧ sqlTypeToGoType "mediumint" false true ≠ sqlTypeToGoType "bigint" false true :=
  ⟨by decide, sqlTypeToGoType_small_int_plain "mediumint" true (by decide)⟩

/-- C5: for date, datetime, time and timestamp the result is `null.Time` exactly
when the column is nullable and the style is A, and `time.Time` in the three other
combinations; under style B a nullable column gets the type of a non-nullable one. -/
theorem sqlTypeToGoType_time (s : String) (nullable gureguTypes : Bool)
    (hs : s ∈ ["date", "datetime", "time", "timestamp"]) :
    (sqlTypeToGoType s nullable gureguTypes = "null.Time"
      ↔ (nullable = true ∧ gureguTypes = true))
    ∧ (¬ (nullable = true ∧ gureguTypes = true) →
      sqlTypeToGoType s nullable gureguTypes = "time.Time")
    ∧ sqlTypeToGoType s true false = sqlTypeToGoType s false false := by
  exact (by decide : ∀ n g : Bool, ∀ t ∈ ["date", "datetime", "time", "timestamp"],
    (sqlTypeToGoType t n g = "null.Time" ↔ (n = true ∧ g = true))
    ∧ (¬ (n = true ∧ g = true) → sqlTypeToGoType t n g = "time.Time")
    ∧ sqlTypeToGoType t true false = sqlTypeToGoType t false false)
    nullable gureguTypes s hs

/-- Witness of C5 at a nullable `timestamp` column under style B. -/
theorem sqlTypeToGoType_time_witness :
    "timestamp" ∈ ["date", "datetime", "time", "timestamp"]
    ∧ (sqlTypeToGoType "timestamp" true false = "null.Time" ↔ (true = true ∧ false = true))
    ∧ (¬ (true = true ∧ false = true) → sqlTypeToGoType "timestamp" true false = "time.Time")
    ∧ sqlTypeToGoType "timestamp" true false = sqlTypeToGoType "timestamp" false false :=
  ⟨by decide, sqlTypeToGoType_time "timestamp" true false (by decide)⟩

/-- C6, at the failing input: `tinyblob` is in no `case` of the `switch`, so it is
mapped to the empty string (and its column is skipped), while binary, varbinary,
blob, mediumblob and longblob are mapped to the byte sequence type whatever the
nullable flag and the style. -/
theorem sqlTypeToGoType_tinyblob_unsupported :
    (∀ nullable gureguTypes : Bool, sqlTypeToGoType "tinyblob" nullable gureguTypes = "")
    ∧ (∀ nullable gureguTypes : Bool,
        ["binary", "varbinary", "blob", "mediumblob", "longblob"].map
          (fun s => sqlTypeToGoType s nullable gureguTypes)
        = ["[]byte", "[]byte", "[]byte", "[]byte", "[]byte"]) := by
  decide

/-! ## The field composer: results -/

/-- C7: `generateFieldsTypes` emits exactly one declaration for each column whose
lower-cased database type name is supported and none for the others, in the order
of the input: the output is the list of the declarations of the supported columns,
its length is their number, the empty column list gives the empty output, and the
three columns id, email and created_at of the scenario give three declarations in
that order (an unsupported `json` column between them is left out). -/
theorem generateFieldsTypes_one_per_supported_column (E : Env)
    (columns : List ColumnType) (primaryKeys : List String)
    (columnLengths : List ColumnLength)
    (j g gureguTypes v : Bool) :
    generateFieldsTypes E columns primaryKeys columnLengths j g gureguTypes v
      = (columns.filter
          (fun c => decide (E.ToLower c.databaseTypeName ∈ supportedTypes))).map
          (columnField E primaryKeys columnLengths j g gureguTypes v)
    ∧ (generateFieldsTypes E columns primaryKeys columnLengths j g gureguTypes v).length
      = columns.countP (fun c => decide (E.ToLower c.databaseTypeName ∈ supportedTypes))
    ∧ generateFieldsTypes E [] primaryKeys columnLengths j g gureguTypes v = []
    ∧ generateFieldsTypes asciiEnv scenarioColumns ["id"] [⟨"email", 100⟩]
        true true true true
      = ["ID int `gorm:\"column:id;primary_key\" validate:\"required\" json:\"id\"`",
         "Email string `gorm:\"column:email\" validate:\"required,max=100\" json:\"email\"`",
         "CreatedAt time.Time `gorm:\"column:created_at\" validate:\"\" json:\"created_at\"`"]
    ∧ generateFieldsTypes asciiEnv
        [⟨"id", "INT", false⟩, ⟨"payload", "JSON", true⟩, ⟨"email", "VARCHAR", false⟩]
        [] [] false false false false
      = ["ID int", "Email string"] := by
  have hfun : emitted E gureguTypes
      = fun c => decide (E.ToLower c.databaseTypeName ∈ supportedTypes) :=
    funext (emitted_eq_supported E gureguTypes)
  have hmain := generateFieldsTypes_eq_map_filter E primaryKeys columnLengths j g
    gureguTypes v columns
  rw [hfun] at hmain
  refine ⟨hmain, ?_, rfl, by decide, by decide⟩
  rw [hmain, List.length_map, List.countP_eq_length_filter]

/-- C8, as stated, fails in its last sentence: with the three toggles off the
declaration of the column named a`b holds a backtick, the one of its field name. -/
theorem generateFieldsTypes_backtick_in_field_name :
    generateFieldsTypes asciiEnv [⟨"a`b", "INT", false⟩] [] [] false false false false
      = ["A`b int"]
    ∧ backtick ∈ ("A`b int" : String).data := by
  decide

/-- C8, amended: every emitted declaration is the field name, a space and the value
type, followed, exactly when a toggle is on, by a space and the backtick-wrapped
clauses whose toggle is on, in the order gorm, validate, json, joined by one space;
the validate clause is present even for an empty rule list. With the three toggles
off the declaration is the field name, a space and the value type, and holds no
backtick unless the field name does. -/
theorem generateFieldsTypes_declaration_format (E : Env) (columns : List ColumnType)
    (primaryKeys : List String) (columnLengths : List ColumnLength)
    (j g gureguTypes v : Bool) (c : ColumnType) :
    generateFieldsTypes E columns primaryKeys columnLengths j g gureguTypes v
      = (columns.filter (emitted E gureguTypes)).map
          (declarationSpec E primaryKeys columnLengths j g gureguTypes v)
    ∧ declarationSpec E primaryKeys columnLengths true true gureguTypes true c
      = E.FmtFieldName (E.stringifyFirstChar c.name) ++ " "
        ++ sqlTypeToGoType (E.ToLower c.databaseTypeName) c.nullable gureguTypes
        ++ " `" ++ gormClause E primaryKeys c ++ " " ++ validateClause E columnLengths c
        ++ " " ++ jsonClause c ++ "`"
    ∧ declarationSpec E primaryKeys columnLengths true false gureguTypes true c
      = E.FmtFieldName (E.stringifyFirstChar c.name) ++ " "
        ++ sqlTypeToGoType (E.ToLower c.databaseTypeName) c.nullable gureguTypes
        ++ " `" ++ validateClause E columnLengths c ++ " " ++ jsonClause c ++ "`"
    ∧ validateClause E columnLengths c
      = "validate:\"" ++ join (validateRules E columnLengths c) "," ++ "\""
    ∧ jsonClause c = "json:\"" ++ c.name ++ "\""
    ∧ declarationSpec E primaryKeys columnLengths false false gureguTypes false c
      = E.FmtFieldName (E.stringifyFirstChar c.name) ++ " "
        ++ sqlTypeToGoType (E.ToLower c.databaseTypeName) c.nullable gureguTypes
    ∧ (backtick ∉ (E.FmtFieldName (E.stringifyFirstChar c.name)).data →
        backtick ∉
          (declarationSpec E primaryKeys columnLengths false false gureguTypes false c).data)
    ∧ ((columnLengths = [] ∧ c.nullable = true) →
        declarationSpec E primaryKeys columnLengths false false gureguTypes true c
        = E.FmtFieldName (E.stringifyFirstChar c.name) ++ " "
          ++ sqlTypeToGoType (E.ToLower c.databaseTypeName) c.nullable gureguTypes
          ++ " `validate:\"\"`") := by
  refine ⟨?_, ?_, ?_, rfl, rfl, ?_, ?_, ?_⟩
  · rw [generateFieldsTypes_eq_map_filter]
    exact congrArg (fun f => List.map f (columns.filter (emitted E gureguTypes)))
      (funext (columnField_eq_declarationSpec E primaryKeys columnLengths
        j g gureguTypes v))
  · simp [declarationSpec, String.intercalate, String.intercalate.go, String.append_assoc]
  · simp [declarationSpec, String.intercalate, String.intercalate.go, String.append_assoc]
  · simp [declarationSpec]
  · intro hname
    have hty := sqlTypeToGoType_no_backtick (E.ToLower c.databaseTypeName) c.nullable
      gureguTypes
    have hsp : backtick ∉ (" " : String).data := by decide
    simp only [declarationSpec, Bool.or_self, Bool.false_eq_true, if_false,
      String.append_empty, String.data_append, List.mem_append, not_or]
    exact ⟨⟨hname, hsp⟩, hty⟩
  · rintro ⟨hcl, hn⟩
    subst hcl
    simp [declarationSpec, validateClause, validateRules_eq, hn, join, String.intercalate,
      String.intercalate.go, String.append_assoc]

/-- Witness of the amended C8 on the non-nullable varchar column email, toggles off, and on a
nullable column with no declared length, validation toggle only. -/
theorem generateFieldsTypes_declaration_format_witness :
    backtick ∉ (declarationSpec asciiEnv [] [] false false true false
      ⟨"email", "VARCHAR", false⟩).data
    ∧ declarationSpec asciiEnv [] [] false false true true ⟨"note", "TEXT", true⟩
      = "Note null.String `validate:\"\"`" :=
  ⟨(generateFieldsTypes_declaration_format asciiEnv [] [] [] false false true false
      ⟨"email", "VARCHAR", false⟩).2.2.2.2.2.2.1 (by decide),
   ((generateFieldsTypes_declaration_format asciiEnv [] [] [] false false true false
      ⟨"note", "TEXT", true⟩).2.2.2.2.2.2.2 ⟨rfl, rfl⟩).trans (by decide)⟩

/-- C9: with the validation toggle on, the rule list of a column contains `required`
exactly when the column is not nullable and its lower-cased name is neither
created_at nor updated_at; when present, `required` is the first rule; a column whose
lower-cased name is created_at never gets it, whatever its nullability flag. The
rule list is the one joined into the validate clause of the declaration. -/
theorem validateRules_required (E : Env) (primaryKeys : List String)
    (columnLengths : List ColumnLength) (j g : Bool) (c : ColumnType) :
    ("required" ∈ validateRules E columnLengths c
      ↔ (c.nullable = false ∧ E.ToLower c.name ≠ "created_at"
          ∧ E.ToLower c.name ≠ "updated_at"))
    ∧ ("required" ∈ validateRules E columnLengths c →
        (validateRules E columnLengths c).head? = some "required")
    ∧ (E.ToLower c.name = "created_at" → "required" ∉ validateRules E columnLengths c)
    ∧ "validate:\"" ++ join (validateRules E columnLengths c) "," ++ "\""
        ∈ annotations E primaryKeys columnLengths j g true c := by
  have hmax : ∀ l : List ColumnLength,
      "required" ∉ l.map (fun ci => "max=" ++ formatInt ci.Length) := by
    intro l hmem
    obtain ⟨ci, -, hci⟩ := List.mem_map.1 hmem
    exact required_ne_max _ hci.symm
  have hiff : "required" ∈ validateRules E columnLengths c
      ↔ (c.nullable = false ∧ E.ToLower c.name ≠ "created_at"
          ∧ E.ToLower c.name ≠ "updated_at") := by
    rw [validateRules_eq]
    by_cases hc : c.nullable = false ∧ E.ToLower c.name ≠ "created_at"
        ∧ E.ToLower c.name ≠ "updated_at"
    · simp [hc]
    · by_cases h3 : E.ToLower c.databaseTypeName = "varchar"
      · simp only [hc, h3, if_true, if_false, List.nil_append, iff_false]
        exact hmax _
      · simp [hc, h3]
  refine ⟨hiff, ?_, ?_, ?_⟩
  · intro hmem
    have hc := hiff.1 hmem
    rw [validateRules_eq]
    simp [hc]
  · intro hcreated hmem
    exact (hiff.1 hmem).2.1 hcreated
  · unfold annotations
    cases j <;> cases g <;> by_cases h : E.Contains primaryKeys (E.ToLower c.name) = true <;>
      simp [h]

/-- Witness of C9: the non-nullable column `Created_AT` gets no `required` rule, the
non-nullable column `email` gets it as its first rule. -/
theorem validateRules_required_witness :
    "required" ∉ validateRules asciiEnv [] ⟨"Created_AT", "DATETIME", false⟩
    ∧ (validateRules asciiEnv [⟨"email", 255⟩] ⟨"email", "VARCHAR", false⟩).head?
        = some "required" :=
  ⟨(validateRules_required asciiEnv [] [] false false
      ⟨"Created_AT", "DATETIME", false⟩).2.2.1 (by decide),
   (validateRules_required asciiEnv [] [⟨"email", 255⟩] false false
      ⟨"email", "VARCHAR", false⟩).2.1 (by decide)⟩

/-! ## The ORM clause -/

/-- C11: with the ORM toggle on, the ORM clause is the first annotation of the
column; it is `gorm:"column:k;primary_key"` when the raw name k equals
case-insensitively some member of the primary-key list and `gorm:"column:k"`
otherwise, and carries the raw name in both cases. `Contains` is taken to match its
lower-cased argument against the lower-cased members of the list. -/
theorem gormClause_primary_key (E : Env)
    (hC : ∀ (l : List String) (x : String),
      E.Contains l x = true ↔ ∃ p ∈ l, E.ToLower p = x)
    (primaryKeys : List String) (columnLengths : List ColumnLength) (j v : Bool)
    (c : ColumnType) :
    annotations E primaryKeys columnLengths j true v c
      = gormClause E primaryKeys c :: annotations E primaryKeys columnLengths j false v c
    ∧ ((∃ p ∈ primaryKeys, E.ToLower p = E.ToLower c.name) →
        gormClause E primaryKeys c = "gorm:\"column:" ++ c.name ++ ";primary_key\"")
    ∧ ((¬ ∃ p ∈ primaryKeys, E.ToLower p = E.ToLower c.name) →
        gormClause E primaryKeys c = "gorm:\"column:" ++ c.name ++ "\"") := by
  refine ⟨?_, ?_, ?_⟩
  · unfold annotations gormClause
    cases j <;> cases v <;> by_cases h : E.Contains primaryKeys (E.ToLower c.name) = true <;>
      simp [h]
  · intro h
    have hc : E.Contains primaryKeys (E.ToLower c.name) = true := (hC _ _).2 h
    simp [gormClause, hc]
  · intro h
    have hc : ¬ E.Contains primaryKeys (E.ToLower c.name) = true := fun hc => h ((hC _ _).1 hc)
    simp [gormClause, hc]

/-- Witness of C11: the column id with the primary keys [id] gets the primary-key
mark, also when the two names differ in letter case, and keeps its raw name. -/
theorem gormClause_primary_key_witness :
    (∀ (l : List String) (x : String),
      asciiEnv.Contains l x = true ↔ ∃ p ∈ l, asciiEnv.ToLower p = x)
    ∧ gormClause asciiEnv ["id"] ⟨"id", "INT", false⟩ = "gorm:\"column:id;primary_key\""
    ∧ gormClause asciiEnv ["ID"] ⟨"Id", "INT", false⟩ = "gorm:\"column:Id;primary_key\""
    ∧ gormClause asciiEnv ["id"] ⟨"email", "VARCHAR", false⟩ = "gorm:\"column:email\""
    ∧ generateFieldsTypes asciiEnv [⟨"id", "INT", false⟩] ["id"] [] false true false false
      = ["ID int `gorm:\"column:id;primary_key\"`"] :=
  have hC : ∀ (l : List String) (x : String),
      asciiEnv.Contains l x = true ↔ ∃ p ∈ l, asciiEnv.ToLower p = x := by
    intro l x
    simp [asciiEnv, Contains, List.any_eq_true]
  ⟨hC,
   ((gormClause_primary_key asciiEnv hC ["id"] [] false false ⟨"id", "INT", false⟩).2.1
      ⟨"id", by decide, by decide⟩).trans (by decide),
   ((gormClause_primary_key asciiEnv hC ["ID"] [] false false ⟨"Id", "INT", false⟩).2.1
      ⟨"ID", by decide, by decide⟩).trans (by decide),
   ((gormClause_primary_key asciiEnv hC ["id"] [] false false
      ⟨"email", "VARCHAR", false⟩).2.2 (by decide)).trans (by decide),
   by decide⟩

/-! ## The declared-length extraction: lemmas -/

theorem Index_ge (s : String) (c : Char) : -1 ≤ Index s c := by
  unfold Index
  split_ifs <;> omega

theorem LastIndex_le_length (s : String) (c : Char) :
    LastIndex s c ≤ (s.data.length : Int) := by
  unfold LastIndex
  split_ifs <;> omega

theorem Index_paren (pre rest : List Char) (c : Char) (hpre : c ∉ pre) :
    Index (String.mk (pre ++ c :: rest)) c = (pre.length : Int) := by
  unfold Index
  have hmem : c ∈ pre ++ c :: rest := by simp
  simp only [hmem, if_true]
  rw [List.indexOf_append_of_not_mem hpre, List.indexOf_cons_self]
  simp

theorem LastIndex_paren (front post : List Char) (c : Char) (hpost : c ∉ post) :
    LastIndex (String.mk (front ++ c :: post)) c = (front.length : Int) := by
  unfold LastIndex
  have hmem : c ∈ front ++ c :: post := by simp
  have hrev : (front ++ c :: post).reverse = post.reverse ++ c :: front.reverse := by simp
  have hpost2 : c ∉ post.reverse := by simpa using hpost
  simp only [hmem, if_true, hrev]
  rw [List.indexOf_append_of_not_mem hpost2, List.indexOf_cons_self]
  simp only [List.length_append, List.length_cons, List.length_reverse]
  congr 1
  omega

theorem Index_absent (s : String) (c : Char) (h : c ∉ s.data) : Index s c = -1 := by
  simp [Index, h]

theorem LastIndex_absent (s : String) (c : Char) (h : c ∉ s.data) : LastIndex s c = -1 := by
  simp [LastIndex, h]

theorem extractLength_paren (pre inner post : List Char) (hpre : '(' ∉ pre)
    (hpost : ')' ∉ post) :
    extractLength (String.mk (pre ++ '(' :: (inner ++ ')' :: post)))
      = Extraction.length (ParseInt (String.mk inner)).1 := by
  have hI := Index_paren pre (inner ++ ')' :: post) '(' hpre
  have hL : LastIndex (String.mk (pre ++ '(' :: (inner ++ ')' :: post))) ')'
      = ((pre ++ '(' :: inner).length : Int) := by
    have := LastIndex_paren (pre ++ '(' :: inner) post ')' hpost
    simpa using this
  have hslice : slice (String.mk (pre ++ '(' :: (inner ++ ')' :: post)))
      ((pre.length : Int) + 1) ((pre ++ '(' :: inner).length : Int)
      = some (String.mk inner) := by
    unfold slice
    have hcond : (0 : Int) ≤ (pre.length : Int) + 1
        ∧ (pre.length : Int) + 1 ≤ ((pre ++ '(' :: inner).length : Int)
        ∧ ((pre ++ '(' :: inner).length : Int)
          ≤ ((pre ++ '(' :: (inner ++ ')' :: post)).length : Int) := by
      simp only [List.length_append, List.length_cons]
      omega
    rw [if_pos hcond]
    have h1 : ((pre.length : Int) + 1).toNat = pre.length + 1 := by omega
    have h2 : (((pre ++ '(' :: inner).length : Int) - ((pre.length : Int) + 1)).toNat
        = inner.length := by
      simp only [List.length_append, List.length_cons]
      omega
    rw [h1, h2]
    have hdrop : (pre ++ '(' :: (inner ++ ')' :: post)).drop (pre.length + 1)
        = inner ++ ')' :: post := by
      rw [show pre ++ '(' :: (inner ++ ')' :: post) = (pre ++ ['(']) ++ (inner ++ ')' :: post)
        by simp]
      rw [List.drop_append_of_le_length (by simp)]
      simp
    rw [hdrop]
    simp
  unfold extractLength
  simp only [hI, hL]
  have hg : ¬ ((pre.length : Int) + 1 < 0 ∨ ((pre ++ '(' :: inner).length : Int) < 0) := by
    omega
  rw [if_neg hg, hslice]

theorem extractLength_no_paren (t : String) (h2 : ')' ∉ t.data) :
    extractLength t = Extraction.noFact := by
  unfold extractLength
  simp [LastIndex_absent t ')' h2]

theorem extractLength_noFact_iff (t : String) :
    extractLength t = Extraction.noFact ↔ ')' ∉ t.data := by
  constructor
  · intro h hmem
    have h1 := Index_ge t '('
    have h2 : 0 ≤ LastIndex t ')' := by
      unfold LastIndex
      rw [if_pos hmem]
      omega
    unfold extractLength at h
    have hg : ¬ (Index t '(' + 1 < 0 ∨ LastIndex t ')' < 0) := by omega
    simp only [hg, if_false] at h
    cases hs : slice t (Index t '(' + 1) (LastIndex t ')') with
    | none =>
      rw [hs] at h
      cases h
    | some sub =>
      rw [hs] at h
      cases h
  · exact extractLength_no_paren t

theorem extractLength_abort_iff (t : String) :
    extractLength t = Extraction.abort
      ↔ (0 ≤ LastIndex t ')' ∧ LastIndex t ')' < Index t '(' + 1) := by
  have h1 := Index_ge t '('
  have h2 := LastIndex_le_length t ')'
  unfold extractLength slice
  by_cases hg : Index t '(' + 1 < 0 ∨ LastIndex t ')' < 0
  · simp only [hg, if_true]
    constructor
    · intro h
      cases h
    · intro h
      omega
  · simp only [hg, if_false]
    by_cases hb : 0 ≤ Index t '(' + 1 ∧ Index t '(' + 1 ≤ LastIndex t ')'
        ∧ LastIndex t ')' ≤ (t.data.length : Int)
    · simp only [hb, and_self, if_true]
      constructor
      · intro h
        cases h
      · intro h
        omega
    · simp only [hb, if_false]
      constructor
      · intro _
        omega
      · intro _
        trivial

theorem foldl_digits_ge (ds : List Char) (n : Nat) :
    n ≤ ds.foldl (fun a c => a * 10 + (c.toNat - 48)) n := by
  induction ds generalizing n with
  | nil => exact Nat.le_refl n
  | cons c cs ih =>
    have h := ih (n * 10 + (c.toNat - 48))
    simp only [List.foldl_cons]
    omega

theorem parseDigits_digits (ds : List Char) (n : Nat) (h : ∀ c ∈ ds, c.isDigit = true)
    (hfit : ds.foldl (fun a c => a * 10 + (c.toNat - 48)) n < 2 ^ 64) :
    parseDigits ds n = (ds.foldl (fun a c => a * 10 + (c.toNat - 48)) n, none) := by
  induction ds generalizing n with
  | nil => rfl
  | cons c cs ih =>
    have hc : c.isDigit = true := h c (by simp)
    simp only [List.foldl_cons] at hfit ⊢
    have hge := foldl_digits_ge cs (n * 10 + (c.toNat - 48))
    have h1 : ¬ ((2 ^ 64 - 1) / 10 + 1 ≤ n) := by omega
    have h2 : ¬ (2 ^ 64 - 1 < n * 10 + (c.toNat - 48)) := by omega
    simp only [parseDigits, hc, if_true, h1, h2, if_false]
    exact ih _ (fun x hx => h x (by simp [hx])) hfit

theorem parseDigits_short_bad (l : List Char) (n k : Nat) (hn : n < 10 ^ k)
    (hlen : k + l.length ≤ 19) (hbad : ∃ ch ∈ l, ch.isDigit = false) :
    parseDigits l n = (0, some NumError.syn) := by
  induction l generalizing n k with
  | nil =>
    obtain ⟨ch, hch, -⟩ := hbad
    cases hch
  | cons c cs ih =>
    by_cases hc : c.isDigit = true
    · have hd : c.toNat - 48 < 10 := by
        simp only [Char.isDigit, Bool.and_eq_true, decide_eq_true_eq] at hc
        have h2 : c.val.toNat ≤ 57 := hc.2
        show c.val.toNat - 48 < 10
        omega
      have hk : k ≤ 18 := by
        simp only [List.length_cons] at hlen
        omega
      have hpow : 10 ^ k ≤ 10 ^ 18 := Nat.pow_le_pow_right (by decide) hk
      have hnext : n * 10 + (c.toNat - 48) < 10 ^ (k + 1) := by
        rw [Nat.pow_succ]
        omega
      have hpow2 : (10 : Nat) ^ (k + 1) ≤ 10 ^ 19 :=
        Nat.pow_le_pow_right (by decide) (by omega)
      have h1 : ¬ ((2 ^ 64 - 1) / 10 + 1 ≤ n) := by
        have : (10 : Nat) ^ 18 ≤ (2 ^ 64 - 1) / 10 := by decide
        omega
      have h2 : ¬ (2 ^ 64 - 1 < n * 10 + (c.toNat - 48)) := by
        have : (10 : Nat) ^ 19 ≤ 2 ^ 64 - 1 := by decide
        omega
      simp only [parseDigits, hc, if_true, h1, h2, if_false]
      apply ih _ (k + 1) hnext
      · simp only [List.length_cons] at hlen
        omega
      · obtain ⟨ch, hch, hd2⟩ := hbad
        rcases List.mem_cons.1 hch with rfl | hmem
        · rw [hc] at hd2
          cases hd2
        · exact ⟨ch, hmem, hd2⟩
    · simp [parseDigits, hc]

theorem ParseInt_error_value (s : String) :
    ((ParseInt s).2 = some NumError.syn → (ParseInt s).1 = 0)
    ∧ ((ParseInt s).2 = some NumError.range →
        (ParseInt s).1 = 2 ^ 63 - 1 ∨ (ParseInt s).1 = -(2 ^ 63)) := by
  unfold ParseInt
  cases s.data with
  | nil => simp
  | cons c rest =>
    simp only
    split_ifs <;> simp

theorem ParseInt_digits (ds : List Char) (hne : ds ≠ []) (h : ∀ c ∈ ds, c.isDigit = true)
    (hrange : decimalValue ds < 2 ^ 63) :
    ParseInt (String.mk ds) = ((decimalValue ds : Int), none) := by
  cases ds with
  | nil => exact absurd rfl hne
  | cons c rest =>
    have hc : c.isDigit = true := h c (by simp)
    have hplus : c ≠ '+' := by
      intro he
      rw [he] at hc
      exact absurd hc (by decide)
    have hminus : c ≠ '-' := by
      intro he
      rw [he] at hc
      exact absurd hc (by decide)
    have hp : parseDigits (c :: rest) 0 = (decimalValue (c :: rest), none) :=
      parseDigits_digits (c :: rest) 0 h (by unfold decimalValue at hrange; omega)
    generalize decimalValue (c :: rest) = v at hp hrange
    simp only [ParseInt, ParseUint, hplus, hminus, or_self, if_false, decide_False, hp]
    simp
    omega

theorem ParseInt_short_bad (s : String) (hlen : s.data.length ≤ 19)
    (h : ∃ ch ∈ s.data, ch.isDigit = false ∧ ch ≠ '+' ∧ ch ≠ '-') :
    ParseInt s = (0, some NumError.syn) := by
  obtain ⟨ch, hmem, hdig, hplus, hminus⟩ := h
  unfold ParseInt
  cases hs : s.data with
  | nil => rfl
  | cons c rest =>
    rw [hs] at hmem hlen
    simp only [List.length_cons] at hlen
    simp only
    by_cases hsign : c = '+' ∨ c = '-'
    · have hrest : ch ∈ rest := by
        rcases List.mem_cons.1 hmem with rfl | hm
        · rcases hsign with h1 | h1
          · exact absurd h1 hplus
          · exact absurd h1 hminus
        · exact hm
      have hne : rest ≠ [] := List.ne_nil_of_mem hrest
      have hp := parseDigits_short_bad rest 0 0 (by decide) (by omega) ⟨ch, hrest, hdig⟩
      simp [hsign, ParseUint, hne, hp]
    · have hp := parseDigits_short_bad (c :: rest) 0 0 (by decide)
        (by simp only [List.length_cons]; omega) ⟨ch, hmem, hdig⟩
      simp [hsign, ParseUint, hp]

theorem columnLengthRow_eq (E : Env) (name t : String) (cols : List ColumnType)
    (acc : List ColumnLength) :
    columnLengthRow E name t cols acc
      = if extractLength t = Extraction.abort ∧ 0 < matchCount E cols name then none
        else some (acc ++ rowFacts E cols (name, t)) := by
  unfold rowFacts matchCount
  induction cols generalizing acc with
  | nil => cases extractLength t <;> simp [columnLengthRow]
  | cons c cs ih =>
    by_cases hm : E.ToLower c.name = E.ToLower name
    · cases hx : extractLength t with
      | noFact => simp [columnLengthRow, hm, hx]
      | abort => simp [columnLengthRow, hm, hx]
      | length n =>
        have hih := ih (acc ++ [⟨E.ToLower name, n⟩])
        rw [hx] at hih
        simp only [columnLengthRow, hm, hx, if_true, hih]
        simp [List.countP_cons, hm, List.replicate_succ]
    · have hih := ih acc
      simp only [columnLengthRow, hm, if_false, hih]
      simp [List.countP_cons, hm]

theorem columnLengthRows_eq (E : Env) (cols : List ColumnType)
    (rows : List (String × String)) (acc : List ColumnLength)
    (hsafe : ∀ row ∈ rows, extractLength row.2 = Extraction.abort →
      matchCount E cols row.1 = 0) :
    columnLengthRows E cols rows acc = some (acc ++ rows.flatMap (rowFacts E cols)) := by
  induction rows generalizing acc with
  | nil => simp [columnLengthRows]
  | cons row rows ih =>
    have hrow : ¬ (extractLength row.2 = Extraction.abort ∧ 0 < matchCount E cols row.1) := by
      rintro ⟨h1, h2⟩
      have := hsafe row (by simp) h1
      omega
    have hr := columnLengthRow_eq E row.1 row.2 cols acc
    rw [if_neg hrow] at hr
    simp only [columnLengthRows, hr]
    rw [ih _ (fun r hr2 => hsafe r (by simp [hr2]))]
    simp [List.flatMap_cons]

theorem columnLength_eq (E : Env) (cols : List ColumnType) (rows : List (String × String))
    (hsafe : ∀ row ∈ rows, extractLength row.2 = Extraction.abort →
      matchCount E cols row.1 = 0) :
    columnLength E rows cols = some (rows.flatMap (rowFacts E cols)) := by
  unfold columnLength
  rw [columnLengthRows_eq E cols rows [] hsafe]
  simp

theorem extractLength_length_iff (t : String) :
    (∃ n, extractLength t = Extraction.length n)
      ↔ (')' ∈ t.data ∧ Index t '(' + 1 ≤ LastIndex t ')') := by
  have h1 := Index_ge t '('
  have h2 := LastIndex_le_length t ')'
  constructor
  · rintro ⟨n, hn⟩
    have hmem : ')' ∈ t.data := by
      by_contra hno
      rw [extractLength_no_paren t hno] at hn
      cases hn
    refine ⟨hmem, ?_⟩
    by_contra hlt
    have hlast : 0 ≤ LastIndex t ')' := by
      unfold LastIndex
      rw [if_pos hmem]
      omega
    have := (extractLength_abort_iff t).2 ⟨hlast, by omega⟩
    rw [this] at hn
    cases hn
  · rintro ⟨hmem, hle⟩
    cases hx : extractLength t with
    | noFact => exact absurd hmem ((extractLength_noFact_iff t).1 hx)
    | abort =>
      have := (extractLength_abort_iff t).1 hx
      omega
    | length n => exact ⟨n, rfl⟩

theorem rowFacts_paren (E : Env) (cols : List ColumnType) (name : String)
    (pre inner post : String) (hpre : '(' ∉ pre.data) (hpost : ')' ∉ post.data) :
    rowFacts E cols (name, pre ++ "(" ++ inner ++ ")" ++ post)
      = List.replicate (matchCount E cols name) ⟨E.ToLower name, (ParseInt inner).1⟩ := by
  have hstr : pre ++ "(" ++ inner ++ ")" ++ post
      = String.mk (pre.data ++ '(' :: (inner.data ++ ')' :: post.data)) := by
    apply String.ext
    simp [String.data_append]
  unfold rowFacts
  simp only
  rw [hstr, extractLength_paren pre.data inner.data post.data hpre hpost]

theorem columnLengthRows_some (E : Env) (cols : List ColumnType)
    (rows : List (String × String)) (acc out : List ColumnLength)
    (h : columnLengthRows E cols rows acc = some out) :
    out = acc ++ rows.flatMap (rowFacts E cols) := by
  induction rows generalizing acc with
  | nil =>
    simp only [columnLengthRows, Option.some.injEq] at h
    simp [h]
  | cons row rows ih =>
    have hr := columnLengthRow_eq E row.1 row.2 cols acc
    by_cases hab : extractLength row.2 = Extraction.abort ∧ 0 < matchCount E cols row.1
    · rw [if_pos hab] at hr
      simp [columnLengthRows, hr] at h
    · rw [if_neg hab] at hr
      simp only [columnLengthRows, hr] at h
      rw [ih _ h]
      simp [List.flatMap_cons]

theorem columnLength_some (E : Env) (cols : List ColumnType)
    (rows : List (String × String)) (facts : List ColumnLength)
    (h : columnLength E rows cols = some facts) :
    facts = rows.flatMap (rowFacts E cols) := by
  have := columnLengthRows_some E cols rows [] facts h
  simpa using this

theorem rowFacts_name (E : Env) (cols : List ColumnType) (row : String × String)
    (ci : ColumnLength) (h : ci ∈ rowFacts E cols row) :
    ci.ColumnName = E.ToLower row.1 := by
  unfold rowFacts at h
  cases hx : extractLength row.2 with
  | noFact =>
    rw [hx] at h
    cases h
  | abort =>
    rw [hx] at h
    cases h
  | length n =>
    rw [hx] at h
    rw [(List.mem_replicate.1 h).2]

theorem toLower_idem (c : Char) : c.toLower.toLower = c.toLower := by
  have key : ∀ n : Nat, n < 128 →
      (Char.ofNat n).toLower.toLower = (Char.ofNat n).toLower := by decide
  by_cases h : c.toNat < 128
  · have hc : Char.ofNat c.toNat = c := Char.ofNat_toNat c
    have := key c.toNat h
    rw [hc] at this
    exact this
  · have hsame : c.toLower = c := by
      have h3 : ¬ (c.toNat ≥ 65 ∧ c.toNat ≤ 90) := by omega
      simp only [Char.toLower, h3, if_false]
    rw [hsame, hsame]

theorem asciiToLower_idem (s : String) :
    asciiEnv.ToLower (asciiEnv.ToLower s) = asciiEnv.ToLower s := by
  show asciiToLower (asciiToLower s) = asciiToLower s
  unfold asciiToLower
  congr 1
  simp only [List.map_map]
  exact List.map_congr_left (fun c _ => toLower_idem c)

/-! ## The declared-length extraction: results -/

/-- C12, as stated, fails: the content `10,2` of `decimal(10,2)` does not parse, yet
`columnLength` records the fact of length 0 for the column; for the content `abc` of
`varchar(abc)` the recorded fact makes `generateFieldsTypes` emit the rule `max=0`;
and a content whose digits overflow records the largest `int64`. -/
theorem columnLength_records_fact_on_parse_failure :
    ParseInt "10,2" = (0, some NumError.syn)
    ∧ columnLength asciiEnv [("price", "decimal(10,2)")] [⟨"price", "DECIMAL", false⟩]
      = some [⟨"price", 0⟩]
    ∧ ParseInt "abc" = (0, some NumError.syn)
    ∧ columnLength asciiEnv [("code", "varchar(abc)")] [⟨"code", "VARCHAR", true⟩]
      = some [⟨"code", 0⟩]
    ∧ generateFieldsTypes asciiEnv [⟨"code", "VARCHAR", true⟩] [] [⟨"code", 0⟩]
        false false false true
      = ["Code sql.NullString `validate:\"max=0\"`"]
    ∧ ParseInt "99999999999999999999x" = (9223372036854775807, some NumError.range)
    ∧ columnLength asciiEnv [("code", "varchar(99999999999999999999x)")]
        [⟨"code", "VARCHAR", true⟩]
      = some [⟨"code", 9223372036854775807⟩] := by
  decide

/-- C12, amended: when no matching row aborts, `columnLength` returns the facts of
its catalog rows in order. A row whose type string has content between the first `(`
and the last `)` that fails to parse adds, for each introspected column of its name,
the fact of the lower-cased column name with the value `ParseInt` returns beside its
error: 0 for a syntax error, which is the case of a content of at most 19
characters holding a character that is neither a digit nor a sign, and an `int64`
bound for a range error. `generateFieldsTypes` emits no max rule for a column whose
lower-cased type is not varchar, whatever facts are recorded. -/
theorem columnLength_parse_failure (E : Env) (rows : List (String × String))
    (cols : List ColumnType)
    (hsafe : ∀ row ∈ rows, extractLength row.2 = Extraction.abort →
      matchCount E cols row.1 = 0) :
    columnLength E rows cols = some (rows.flatMap (rowFacts E cols))
    ∧ (∀ (name pre inner post : String),
        (name, pre ++ "(" ++ inner ++ ")" ++ post) ∈ rows →
        '(' ∉ pre.data → ')' ∉ post.data → (ParseInt inner).2 ≠ none →
        rowFacts E cols (name, pre ++ "(" ++ inner ++ ")" ++ post)
          = List.replicate (matchCount E cols name) ⟨E.ToLower name, (ParseInt inner).1⟩
        ∧ ((∃ c ∈ cols, E.ToLower c.name = E.ToLower name) →
            (⟨E.ToLower name, (ParseInt inner).1⟩ : ColumnLength)
              ∈ rows.flatMap (rowFacts E cols))
        ∧ ((ParseInt inner).1 = 0 ∨ (ParseInt inner).1 = 2 ^ 63 - 1
            ∨ (ParseInt inner).1 = -(2 ^ 63))
        ∧ ((ParseInt inner).2 = some NumError.syn → (ParseInt inner).1 = 0)
        ∧ (inner.data.length ≤ 19 →
            (∃ ch ∈ inner.data, ch.isDigit = false ∧ ch ≠ '+' ∧ ch ≠ '-') →
            ParseInt inner = (0, some NumError.syn)))
    ∧ (∀ (columnLengths : List ColumnLength) (c : ColumnType) (x : String),
        E.ToLower c.databaseTypeName ≠ "varchar" →
        "max=" ++ x ∉ validateRules E columnLengths c) := by
  refine ⟨columnLength_eq E cols rows hsafe, ?_, ?_⟩
  · intro name pre inner post hrow hpre hpost hfail
    have hfacts := rowFacts_paren E cols name pre inner post hpre hpost
    have herr := ParseInt_error_value inner
    refine ⟨hfacts, ?_, ?_, herr.1, ParseInt_short_bad inner⟩
    · rintro ⟨c, hc, hname⟩
      refine List.mem_flatMap.2 ⟨_, hrow, ?_⟩
      rw [hfacts]
      refine List.mem_replicate.2 ⟨?_, rfl⟩
      have hpos : 0 < matchCount E cols name :=
        List.countP_pos_iff.2 ⟨c, hc, by simp [hname]⟩
      omega
    · cases herr2 : (ParseInt inner).2 with
      | none => exact absurd herr2 hfail
      | some e =>
        cases e with
        | syn => exact Or.inl (herr.1 herr2)
        | range => exact Or.inr (herr.2 herr2)
  · intro cl c x htype hx
    rw [validateRules_eq, if_neg htype, List.append_nil] at hx
    by_cases hc : c.nullable = false ∧ E.ToLower c.name ≠ "created_at"
        ∧ E.ToLower c.name ≠ "updated_at"
    · rw [if_pos hc] at hx
      exact required_ne_max x (List.mem_singleton.1 hx).symm
    · rw [if_neg hc] at hx
      exact absurd hx (List.not_mem_nil _)

/-- Witness of the amended C12 on a catalog of three rows and a table of two columns:
the row of type `decimal(10,2)` adds the fact of length 0, the row of an unknown
column adds nothing. -/
theorem columnLength_parse_failure_witness :
    columnLength asciiEnv
        [("id", "int(11)"), ("Price", "decimal(10,2)"), ("other", "varchar(9)")]
        [⟨"id", "INT", false⟩, ⟨"price", "DECIMAL", false⟩]
      = some ([("id", "int(11)"), ("Price", "decimal(10,2)"), ("other", "varchar(9)")].flatMap
          (rowFacts asciiEnv [⟨"id", "INT", false⟩, ⟨"price", "DECIMAL", false⟩]))
    ∧ columnLength asciiEnv
        [("id", "int(11)"), ("Price", "decimal(10,2)"), ("other", "varchar(9)")]
        [⟨"id", "INT", false⟩, ⟨"price", "DECIMAL", false⟩]
      = some [⟨"id", 11⟩, ⟨"price", 0⟩] :=
  ⟨(columnLength_parse_failure asciiEnv
      [("id", "int(11)"), ("Price", "decimal(10,2)"), ("other", "varchar(9)")]
      [⟨"id", "INT", false⟩, ⟨"price", "DECIMAL", false⟩] (by decide)).1,
   by decide⟩

/-- C13, as stated, fails: the type string `varchar(` contains a parenthesis and
records nothing, and the type string `255)` has no `(` followed by a `)` and
records the fact of length 255. -/
theorem columnLength_parenthesis_not_exact :
    columnLength asciiEnv [("email", "varchar(")] [⟨"email", "VARCHAR", false⟩] = some []
    ∧ columnLength asciiEnv [("email", "255)")] [⟨"email", "VARCHAR", false⟩]
      = some [⟨"email", 255⟩] := by
  decide

/-- C13, amended: when no matching row aborts, `columnLength` returns the facts of
its catalog rows in order. A row adds facts exactly when its column name matches an
introspected column case-insensitively and its type string has a `)` whose last
occurrence is not before the position after the first `(`. For a type string with a
`(` and a later `)` it adds, for each introspected column of its name, the fact of
the lower-cased column name with the length parsed from the text between the first
`(` and the last `)`, which is N when that text is the decimal numeral of an `int64`
N; a type string without `)`, so one without parentheses, adds nothing. -/
theorem columnLength_parenthesized_length (E : Env) (rows : List (String × String))
    (cols : List ColumnType)
    (hsafe : ∀ row ∈ rows, extractLength row.2 = Extraction.abort →
      matchCount E cols row.1 = 0) :
    columnLength E rows cols = some (rows.flatMap (rowFacts E cols))
    ∧ (∀ row : String × String, rowFacts E cols row ≠ []
        ↔ ((∃ c ∈ cols, E.ToLower c.name = E.ToLower row.1)
          ∧ ')' ∈ row.2.data ∧ Index row.2 '(' + 1 ≤ LastIndex row.2 ')'))
    ∧ (∀ (name pre inner post : String), '(' ∉ pre.data → ')' ∉ post.data →
        rowFacts E cols (name, pre ++ "(" ++ inner ++ ")" ++ post)
          = List.replicate (matchCount E cols name) ⟨E.ToLower name, (ParseInt inner).1⟩
        ∧ (inner.data ≠ [] → (∀ ch ∈ inner.data, ch.isDigit = true) →
            decimalValue inner.data < 2 ^ 63 →
            rowFacts E cols (name, pre ++ "(" ++ inner ++ ")" ++ post)
              = List.replicate (matchCount E cols name)
                  ⟨E.ToLower name, (decimalValue inner.data : Int)⟩)
        ∧ ((name, pre ++ "(" ++ inner ++ ")" ++ post) ∈ rows →
            (∃ c ∈ cols, E.ToLower c.name = E.ToLower name) →
            (⟨E.ToLower name, (ParseInt inner).1⟩ : ColumnLength)
              ∈ rows.flatMap (rowFacts E cols)))
    ∧ (∀ row : String × String, ')' ∉ row.2.data → rowFacts E cols row = []) := by
  have hpos : ∀ name : String, 0 < matchCount E cols name
      ↔ ∃ c ∈ cols, E.ToLower c.name = E.ToLower name := by
    intro name
    unfold matchCount
    rw [List.countP_pos_iff]
    constructor
    · rintro ⟨c, hc, h⟩
      exact ⟨c, hc, by simpa using h⟩
    · rintro ⟨c, hc, h⟩
      exact ⟨c, hc, by simp [h]⟩
  refine ⟨columnLength_eq E cols rows hsafe, ?_, ?_, ?_⟩
  · intro row
    rw [← extractLength_length_iff, ← hpos]
    unfold rowFacts
    cases hx : extractLength row.2 with
    | noFact => simp
    | abort => simp
    | length n =>
      constructor
      · intro hne
        refine ⟨?_, n, rfl⟩
        by_contra hzero
        have h0 : matchCount E cols row.1 = 0 := by omega
        simp [h0] at hne
      · rintro ⟨hk, -⟩ hnil
        have hlen := congrArg List.length hnil
        simp at hlen
        omega
  · intro name pre inner post hpre hpost
    have hfacts := rowFacts_paren E cols name pre inner post hpre hpost
    refine ⟨hfacts, ?_, ?_⟩
    · intro hne hdig hrange
      have hp := ParseInt_digits inner.data hne hdig hrange
      rw [hfacts, show inner = String.mk inner.data from rfl, hp]
    · intro hrow hmatch
      refine List.mem_flatMap.2 ⟨_, hrow, ?_⟩
      rw [hfacts]
      refine List.mem_replicate.2 ⟨?_, rfl⟩
      have := (hpos name).2 hmatch
      omega
  · intro row hno
    unfold rowFacts
    rw [extractLength_no_paren row.2 hno]

/-- Witness of the amended C13 on a catalog of three rows and a table of three
columns, two of them of the same lower-cased name: the row of type `varchar(255)`
adds one fact of length 255 for each of the two columns, the row of type `text`
adds nothing. -/
theorem columnLength_parenthesized_length_witness :
    columnLength asciiEnv
        [("Email", "varchar(255)"), ("note", "text"), ("id", "int(11)")]
        [⟨"id", "INT", false⟩, ⟨"email", "VARCHAR", false⟩, ⟨"EMAIL", "VARCHAR", true⟩]
      = some ([("Email", "varchar(255)"), ("note", "text"), ("id", "int(11)")].flatMap
          (rowFacts asciiEnv
            [⟨"id", "INT", false⟩, ⟨"email", "VARCHAR", false⟩, ⟨"EMAIL", "VARCHAR", true⟩]))
    ∧ columnLength asciiEnv
        [("Email", "varchar(255)"), ("note", "text"), ("id", "int(11)")]
        [⟨"id", "INT", false⟩, ⟨"email", "VARCHAR", false⟩, ⟨"EMAIL", "VARCHAR", true⟩]
      = some [⟨"email", 255⟩, ⟨"email", 255⟩, ⟨"id", 11⟩] :=
  ⟨(columnLength_parenthesized_length asciiEnv
      [("Email", "varchar(255)"), ("note", "text"), ("id", "int(11)")]
      [⟨"id", "INT", false⟩, ⟨"email", "VARCHAR", false⟩, ⟨"EMAIL", "VARCHAR", true⟩]
      (by decide)).1,
   by decide⟩

/-- C10: with the validation toggle on and the declared-length facts recorded by
`columnLength`, each under the lower-cased name of its catalog row, the rule list of
a column whose lower-cased type is varchar holds `max=N` for every fact of length N
whose column name equals the name of the column case-insensitively; the max rules
come after `required` when that rule is present, and a column of another type, or
with no matching fact, gets no max rule. -/
theorem validateRules_max (E : Env) (rows : List (String × String))
    (cols : List ColumnType) (facts : List ColumnLength)
    (hrec : columnLength E rows cols = some facts) (c : ColumnType) :
    (∀ ci ∈ facts, ∃ row ∈ rows, ci.ColumnName = E.ToLower row.1)
    ∧ (∀ ci ∈ facts, ∀ raw : String, ci.ColumnName = E.ToLower raw →
        E.ToLower raw = E.ToLower c.name →
        E.ToLower c.databaseTypeName = "varchar" →
        "max=" ++ formatInt ci.Length ∈ validateRules E facts c)
    ∧ ((∀ s : String, E.ToLower (E.ToLower s) = E.ToLower s) →
        ∀ ci ∈ facts, E.ToLower ci.ColumnName = E.ToLower c.name →
        E.ToLower c.databaseTypeName = "varchar" →
        "max=" ++ formatInt ci.Length ∈ validateRules E facts c)
    ∧ validateRules E facts c
      = (if c.nullable = false ∧ E.ToLower c.name ≠ "created_at"
            ∧ E.ToLower c.name ≠ "updated_at" then ["required"] else [])
        ++ (if E.ToLower c.databaseTypeName = "varchar" then
              (facts.filter (fun ci => decide (ci.ColumnName = E.ToLower c.name))).map
                (fun ci => "max=" ++ formatInt ci.Length)
            else [])
    ∧ ((E.ToLower c.databaseTypeName ≠ "varchar"
          ∨ (∀ ci ∈ facts, ci.ColumnName ≠ E.ToLower c.name)
          ∨ (∀ row ∈ rows, E.ToLower row.1 ≠ E.ToLower c.name)) →
        ∀ x : String, "max=" ++ x ∉ validateRules E facts c) := by
  have hfacts : facts = rows.flatMap (rowFacts E cols) := columnLength_some E cols rows facts hrec
  have hname : ∀ ci ∈ facts, ∃ row ∈ rows, ci.ColumnName = E.ToLower row.1 := by
    intro ci hci
    rw [hfacts] at hci
    obtain ⟨row, hrow, hmem⟩ := List.mem_flatMap.1 hci
    exact ⟨row, hrow, rowFacts_name E cols row ci hmem⟩
  have hmem : ∀ ci ∈ facts, ci.ColumnName = E.ToLower c.name →
      E.ToLower c.databaseTypeName = "varchar" →
      "max=" ++ formatInt ci.Length ∈ validateRules E facts c := by
    intro ci hci hn htype
    rw [validateRules_eq, if_pos htype]
    refine List.mem_append_right _ (List.mem_map.2 ⟨ci, ?_, rfl⟩)
    exact List.mem_filter.2 ⟨hci, by simp [hn]⟩
  refine ⟨hname, ?_, ?_, validateRules_eq E facts c, ?_⟩
  · intro ci hci raw hraw heq htype
    exact hmem ci hci (hraw.trans heq) htype
  · intro hidem ci hci heq htype
    obtain ⟨row, -, hrow⟩ := hname ci hci
    refine hmem ci hci ?_ htype
    rw [← heq, hrow, hidem]
  · intro hno x hx
    rw [validateRules_eq] at hx
    rcases List.mem_append.1 hx with hreq | hmax
    · have hx2 : "max=" ++ x = "required" := by
        by_cases hc : c.nullable = false ∧ E.ToLower c.name ≠ "created_at"
            ∧ E.ToLower c.name ≠ "updated_at"
        · rw [if_pos hc] at hreq
          exact List.mem_singleton.1 hreq
        · rw [if_neg hc] at hreq
          exact absurd hreq (List.not_mem_nil _)
      exact required_ne_max x hx2.symm
    · by_cases htype : E.ToLower c.databaseTypeName = "varchar"
      · rw [if_pos htype] at hmax
        obtain ⟨ci, hci, -⟩ := List.mem_map.1 hmax
        have hf := List.mem_filter.1 hci
        have hcn : ci.ColumnName = E.ToLower c.name := by simpa using hf.2
        rcases hno with h1 | h2 | h3
        · exact h1 htype
        · exact h2 ci hf.1 hcn
        · obtain ⟨row, hrow, hr⟩ := hname ci hf.1
          exact h3 row hrow (hr.symm.trans hcn)
      · rw [if_neg htype] at hmax
        exact absurd hmax (List.not_mem_nil _)

/-- Witness of C10: the catalog row of the column Email of type `varchar(255)`
records the fact of email with length 255, and the non-nullable varchar column email
gets the clause `validate:"required,max=255"`. -/
theorem validateRules_max_witness :
    columnLength asciiEnv [("Email", "varchar(255)")] [⟨"email", "VARCHAR", false⟩]
      = some [⟨"email", 255⟩]
    ∧ "max=" ++ formatInt 255
        ∈ validateRules asciiEnv [⟨"email", 255⟩] ⟨"email", "VARCHAR", false⟩
    ∧ (∀ s : String, asciiEnv.ToLower (asciiEnv.ToLower s) = asciiEnv.ToLower s)
    ∧ validateRules asciiEnv [⟨"email", 255⟩] ⟨"email", "VARCHAR", false⟩
        = ["required", "max=255"]
    ∧ (∀ x : String,
        "max=" ++ x ∉ validateRules asciiEnv [⟨"email", 255⟩] ⟨"email", "TEXT", false⟩)
    ∧ generateFieldsTypes asciiEnv [⟨"email", "VARCHAR", false⟩] [] [⟨"email", 255⟩]
        false false false true
      = ["Email string `validate:\"required,max=255\"`"] :=
  ⟨by decide,
   (validateRules_max asciiEnv [("Email", "varchar(255)")] [⟨"email", "VARCHAR", false⟩]
      [⟨"email", 255⟩] (by decide) ⟨"email", "VARCHAR", false⟩).2.1
      ⟨"email", 255⟩ (by decide) "Email" (by decide) (by decide) (by decide),
   asciiToLower_idem,
   by decide,
   (validateRules_max asciiEnv [("Email", "varchar(255)")] [⟨"email", "VARCHAR", false⟩]
      [⟨"email", 255⟩] (by decide) ⟨"email", "TEXT", false⟩).2.2.2.2 (Or.inl (by decide)),
   by decide⟩

/-- C14, at the failing input: on the type string `)(` the first `(` is at
position 1 and the last `)` at position 0, so the guard of line 172 lets the bounds
2 and 0 through and the slice expression of line 175 panics; `columnLength` aborts.
The extraction aborts exactly when a `)` is present and the last one comes before
the position after the first `(`; the other malformed strings do not abort. -/
theorem columnLength_panics_on_reversed_parentheses :
    Index ")(" '(' + 1 = 2 ∧ LastIndex ")(" ')' = 0
    ∧ slice ")(" 2 0 = none
    ∧ extractLength ")(" = Extraction.abort
    ∧ columnLength asciiEnv [("a", ")(")] [⟨"a", "INT", false⟩] = none
    ∧ columnLength asciiEnv [("a", "x)y(")] [⟨"a", "INT", false⟩] = none
    ∧ (∀ t : String, extractLength t = Extraction.abort
        ↔ (0 ≤ LastIndex t ')' ∧ LastIndex t ')' < Index t '(' + 1))
    ∧ extractLength "varchar(abc)" = Extraction.length 0
    ∧ extractLength "varchar(" = Extraction.noFact
    ∧ extractLength "varchar)" = Extraction.length 0 := by
  refine ⟨by decide, by decide, by decide, by decide, by decide, by decide,
    extractLength_abort_iff, by decide, by decide, by decide⟩

/-! ## The identifier normaliser: lemmas -/

theorem isDigit_index (d : Char) (hd : d.isDigit = true) : d.toNat - 48 < 10 := by
  simp only [Char.isDigit, Bool.and_eq_true, decide_eq_true_eq] at hd
  have h2 : d.val.toNat ≤ 57 := hd.2
  show d.val.toNat - 48 < 10
  omega

theorem isDigit_ascii (d : Char) (hd : d.isDigit = true) :
    d.toNat < 128 ∧ d.toUpper = d := by
  have key : ∀ n : Nat, n < 128 → (Char.ofNat n).isDigit = true →
      (Char.ofNat n).toUpper = Char.ofNat n := by decide
  have hlt : d.toNat < 128 := by
    simp only [Char.isDigit, Bool.and_eq_true, decide_eq_true_eq] at hd
    have h2 : d.val.toNat ≤ 57 := hd.2
    show d.val.toNat < 128
    omega
  have hc : Char.ofNat d.toNat = d := Char.ofNat_toNat d
  have := key d.toNat hlt (by rw [hc]; exact hd)
  rw [hc] at this
  exact ⟨hlt, this⟩

theorem isLower_ascii (c : Char) (h : c.isLower = true) :
    c.toNat < 128 ∧ c.toUpper.isUpper = true := by
  have key : ∀ n : Nat, n < 128 → (Char.ofNat n).isLower = true →
      (Char.ofNat n).toUpper.isUpper = true := by decide
  have hlt : c.toNat < 128 := by
    simp only [Char.isLower, Bool.and_eq_true, decide_eq_true_eq] at h
    have h2 : c.val.toNat ≤ 122 := h.2
    show c.val.toNat < 128
    omega
  have hc : Char.ofNat c.toNat = c := Char.ofNat_toNat c
  have := key c.toNat hlt (by rw [hc]; exact h)
  rw [hc] at this
  exact ⟨hlt, this⟩

theorem isUpper_not_digit (u : Char) (h : u.isUpper = true) :
    u.isDigit = false ∧ u ≠ '_' := by
  have key : ∀ n : Nat, n < 128 → (Char.ofNat n).isUpper = true →
      (Char.ofNat n).isDigit = false ∧ Char.ofNat n ≠ '_' := by decide
  have hlt : u.toNat < 128 := by
    simp only [Char.isUpper, Bool.and_eq_true, decide_eq_true_eq] at h
    have h2 : u.val.toNat ≤ 90 := h.2
    show u.val.toNat < 128
    omega
  have hc : Char.ofNat u.toNat = u := Char.ofNat_toNat u
  have := key u.toNat hlt (by rw [hc]; exact h)
  rw [hc] at this
  exact this

theorem regularCasing_ascii : regularCasing asciiCasing :=
  ⟨fun _ _ => rfl, fun _ h => h, fun u h => isUpper_not_digit u h⟩

theorem splitTokens_word (w rest cur : List Char) (hw : '_' ∉ w) :
    splitTokens (w ++ '_' :: rest) cur
      = if cur.reverse ++ w = [] then splitTokens rest []
        else String.mk (cur.reverse ++ w) :: splitTokens rest [] := by
  induction w generalizing cur with
  | nil =>
    by_cases hcur : cur = []
    · simp [splitTokens, hcur]
    · simp [splitTokens, hcur]
  | cons x w ih =>
    have hx : x ≠ '_' := fun h => hw (by simp [h])
    have hw2 : '_' ∉ w := fun h => hw (by simp [h])
    have hstep : splitTokens (x :: w ++ '_' :: rest) cur
        = splitTokens (w ++ '_' :: rest) (x :: cur) := by
      simp [splitTokens, hx]
    rw [hstep, ih (x :: cur) hw2]
    simp

theorem String_join_cons (x : String) (xs : List String) :
    String.join (x :: xs) = x ++ String.join xs := by
  apply String.ext
  simp [String.data_join, String.data_append]

theorem FmtFieldNameWith_word (K : Casing) (w : String) (rest : List Char)
    (hw : '_' ∉ w.data) (hne : w.data ≠ []) :
    FmtFieldNameWith K (w ++ "_" ++ String.mk rest)
      = fmtTokenWith K w ++ FmtFieldNameWith K (String.mk rest) := by
  unfold FmtFieldNameWith
  have hdata : (w ++ "_" ++ String.mk rest).data = w.data ++ '_' :: rest := by
    simp [String.data_append]
  rw [hdata, splitTokens_word w.data rest [] hw]
  simp only [List.reverse_nil, List.nil_append, hne, if_false, List.map_cons]
  rw [String_join_cons]

theorem FmtFieldName_word (w : String) (rest : List Char) (hw : '_' ∉ w.data)
    (hne : w.data ≠ []) :
    FmtFieldName (w ++ "_" ++ String.mk rest) = fmtToken w ++ FmtFieldName (String.mk rest) :=
  FmtFieldNameWith_word asciiCasing w rest hw hne

theorem stringifyFirstChar_digit (d : Char) (rest : List Char) (hd : d.isDigit = true) :
    stringifyFirstChar (String.mk (d :: rest))
      = intToWordMap.getD (d.toNat - 48) "" ++ "_" ++ String.mk rest := by
  simp [stringifyFirstChar, hd]

theorem stringifyFirstChar_not_digit (name : String) (c : Char) (rest : List Char)
    (hname : name.data = c :: rest) (hc : c.isDigit = false) :
    stringifyFirstChar name = name := by
  unfold stringifyFirstChar
  rw [hname]
  simp [hc]

theorem splitTokens_dropWhile (l : List Char) :
    splitTokens l [] = splitTokens (l.dropWhile (fun x => decide (x = '_'))) [] := by
  induction l with
  | nil => rfl
  | cons x xs ih =>
    by_cases hx : x = '_'
    · simp [splitTokens, List.dropWhile, hx, ih]
    · simp [List.dropWhile, hx]

theorem dropWhile_head_ne (l : List Char) (c : Char) (rest : List Char)
    (h : l.dropWhile (fun x => decide (x = '_')) = c :: rest) : c ≠ '_' := by
  induction l with
  | nil => cases h
  | cons x xs ih =>
    by_cases hx : x = '_'
    · simp only [List.dropWhile, hx, decide_True] at h
      exact ih h
    · simp only [List.dropWhile, hx, decide_False] at h
      rw [← (List.cons.inj h).1]
      exact hx

theorem splitTokens_head (l cur : List Char) (hcur : cur ≠ []) :
    ∃ p more, splitTokens l cur = String.mk (cur.reverse ++ p) :: more := by
  induction l generalizing cur with
  | nil => exact ⟨[], [], by simp [splitTokens, hcur]⟩
  | cons x xs ih =>
    by_cases hx : x = '_'
    · exact ⟨[], splitTokens xs [], by simp [splitTokens, hx, hcur]⟩
    · obtain ⟨p, more, h⟩ := ih (x :: cur) (by simp)
      exact ⟨x :: p, more, by simp [splitTokens, hx, h]⟩

theorem fmtTokenWith_head (K : Casing) (tok : String) (c : Char) (p : List Char)
    (h : tok.data = c :: p) :
    ∃ q, (fmtTokenWith K tok).data = K.ToUpper c :: q := by
  unfold fmtTokenWith
  by_cases hin : String.mk (tok.data.map K.ToUpper) ∈ commonInitialisms
  · refine ⟨p.map K.ToUpper, ?_⟩
    rw [if_pos hin]
    simp [h]
  · refine ⟨p, ?_⟩
    rw [if_neg hin, h]

theorem FmtFieldNameWith_head (K : Casing) (l : List Char) (c : Char) (rest : List Char)
    (hl : l.dropWhile (fun x => decide (x = '_')) = c :: rest) :
    ∃ tail, (FmtFieldNameWith K (String.mk l)).data = K.ToUpper c :: tail := by
  unfold FmtFieldNameWith
  have hne : c ≠ '_' := dropWhile_head_ne l c rest hl
  have hsplit : splitTokens l [] = splitTokens rest [c] := by
    rw [splitTokens_dropWhile, hl]
    simp [splitTokens, hne]
  obtain ⟨p, more, hp⟩ := splitTokens_head rest [c] (by simp)
  obtain ⟨q, hq⟩ := fmtTokenWith_head K (String.mk ([c].reverse ++ p)) c p (by simp)
  refine ⟨q ++ (String.join (more.map (fmtTokenWith K))).data, ?_⟩
  show (String.join ((splitTokens l []).map (fmtTokenWith K))).data = _
  rw [hsplit, hp, List.map_cons, String_join_cons, String.data_append, hq]
  simp

theorem digit_word (i : Nat) (hi : i < 10) :
    '_' ∉ (intToWordMap.getD i "").data ∧ (intToWordMap.getD i "").data ≠ []
    ∧ ((intToWordMap.getD i "").data.head?.map Char.isLower) = some true := by
  revert i
  decide

theorem fmtToken_digit_word (i : Nat) (hi : i < 10) :
    '_' ∉ (intToWordMap.getD i "").data ∧ (intToWordMap.getD i "").data ≠ []
    ∧ ((fmtToken (intToWordMap.getD i "")).data.head?.map Char.isUpper) = some true := by
  revert i
  decide

/-! ## The identifier normaliser: results -/

/-- C15: for every member M of `commonInitialisms`, the field name of the column
whose name is M in lower case is M itself, in upper case; the column `_id` gives
`ID`. -/
theorem FmtFieldName_initialism (M : String) (hM : M ∈ commonInitialisms) :
    FmtFieldName (stringifyFirstChar (asciiToLower M)) = M
    ∧ asciiEnv.FmtFieldName (asciiEnv.stringifyFirstChar (asciiEnv.ToLower M)) = M
    ∧ FmtFieldName (stringifyFirstChar "_id") = "ID" :=
  (by decide : ∀ m ∈ commonInitialisms,
    FmtFieldName (stringifyFirstChar (asciiToLower m)) = m
    ∧ asciiEnv.FmtFieldName (asciiEnv.stringifyFirstChar (asciiEnv.ToLower m)) = m
    ∧ FmtFieldName (stringifyFirstChar "_id") = "ID") M hM

/-- Witness of C15 at `UUID`, with the columns id and url. -/
theorem FmtFieldName_initialism_witness :
    "UUID" ∈ commonInitialisms
    ∧ (FmtFieldName (stringifyFirstChar (asciiToLower "UUID")) = "UUID"
      ∧ asciiEnv.FmtFieldName (asciiEnv.stringifyFirstChar (asciiEnv.ToLower "UUID")) = "UUID"
      ∧ FmtFieldName (stringifyFirstChar "_id") = "ID")
    ∧ FmtFieldName (stringifyFirstChar "id") = "ID"
    ∧ FmtFieldName (stringifyFirstChar "url") = "URL"
    ∧ FmtFieldName (stringifyFirstChar "uuid") = "UUID" :=
  ⟨by decide, FmtFieldName_initialism "UUID" (by decide), by decide, by decide, by decide⟩

/-- C16, as stated, fails: the name `_` is not empty and its field name is the empty
string; the field name of `_2fa` starts with a digit, that of `$x` with a character
that is not a letter, and that of `中` with a letter that has no upper-case form. On
these four names the ASCII upper-casing does what the library upper-casing does. -/
theorem FmtFieldName_first_char_not_upper :
    FmtFieldName (stringifyFirstChar "_") = ""
    ∧ FmtFieldName (stringifyFirstChar "_2fa") = "2fa"
    ∧ FmtFieldName (stringifyFirstChar "$x") = "$x"
    ∧ FmtFieldName (stringifyFirstChar "中") = "中"
    ∧ generateFieldsTypes asciiEnv [⟨"_", "INT", false⟩] [] [] false false false false
      = [" int"] := by
  decide

/-- C16, amended: under the library upper-casing, for every raw column name that
starts with a decimal digit, or whose first character other than leading underscores
is a letter with an upper-case form (its upper-casing is an upper-case letter), the
field name is a non-empty string whose first character is an upper-case letter,
hence neither a digit nor an underscore. -/
theorem FmtFieldName_first_char_upper (K : Casing) (hK : regularCasing K) (name : String)
    (h : (∃ d rest, name.data = d :: rest ∧ d.isDigit = true)
      ∨ (∃ c rest, name.data.dropWhile (fun x => decide (x = '_')) = c :: rest
          ∧ K.IsUpper (K.ToUpper c) = true)) :
    ∃ u tail, (FmtFieldNameWith K (stringifyFirstChar name)).data = u :: tail
      ∧ K.IsUpper u = true ∧ u.isDigit = false ∧ u ≠ '_' := by
  obtain ⟨hA, hB, hC⟩ := hK
  rcases h with ⟨d, rest, hname, hd⟩ | ⟨c, rest, hdrop, hc⟩
  · have hn : name = String.mk (d :: rest) := String.ext hname
    have hw := digit_word (d.toNat - 48) (isDigit_index d hd)
    rw [hn, stringifyFirstChar_digit d rest hd,
      FmtFieldNameWith_word K _ rest hw.1 hw.2.1, String.data_append]
    cases hdata : (intToWordMap.getD (d.toNat - 48) "").data with
    | nil => exact absurd hdata hw.2.1
    | cons w0 p =>
      have h3 := hw.2.2
      rw [hdata] at h3
      have hlow : w0.isLower = true := by simpa using h3
      obtain ⟨q, hq⟩ := fmtTokenWith_head K _ w0 p hdata
      have hasc := isLower_ascii w0 hlow
      have hup : K.IsUpper (K.ToUpper w0) = true := by
        rw [hA w0 hasc.1]
        exact hB _ hasc.2
      exact ⟨K.ToUpper w0, q ++ (FmtFieldNameWith K (String.mk rest)).data,
        by rw [hq]; simp, hup, (hC _ hup).1, (hC _ hup).2⟩
  · have hsame : stringifyFirstChar name = name := by
      cases hdata : name.data with
      | nil =>
        rw [hdata] at hdrop
        cases hdrop
      | cons x xs =>
        refine stringifyFirstChar_not_digit name x xs hdata ?_
        by_cases hx : x = '_'
        · rw [hx]
          decide
        · rw [hdata] at hdrop
          simp only [List.dropWhile, hx, decide_False] at hdrop
          have hxc : x = c := (List.cons.inj hdrop).1
          rw [hxc]
          by_contra hdig
          have hdig2 : c.isDigit = true := by simpa using hdig
          have hasc := isDigit_ascii c hdig2
          have hfix : K.ToUpper c = c := by rw [hA c hasc.1, hasc.2]
          rw [hfix] at hc
          have := (hC c hc).1
          rw [hdig2] at this
          cases this
    obtain ⟨tail, ht⟩ := FmtFieldNameWith_head K name.data c rest hdrop
    rw [hsame]
    exact ⟨K.ToUpper c, tail, ht, hc, (hC _ hc).1, (hC _ hc).2⟩

/-- Witness of the amended C16 under the ASCII upper-casing, on the names `email`,
`_id` and `2fa_code`. -/
theorem FmtFieldName_first_char_upper_witness :
    regularCasing asciiCasing
    ∧ (∃ u tail, (FmtFieldNameWith asciiCasing (stringifyFirstChar "email")).data = u :: tail
      ∧ asciiCasing.IsUpper u = true ∧ u.isDigit = false ∧ u ≠ '_')
    ∧ (∃ u tail, (FmtFieldNameWith asciiCasing (stringifyFirstChar "_id")).data = u :: tail
      ∧ asciiCasing.IsUpper u = true ∧ u.isDigit = false ∧ u ≠ '_')
    ∧ (∃ u tail,
        (FmtFieldNameWith asciiCasing (stringifyFirstChar "2fa_code")).data = u :: tail
      ∧ asciiCasing.IsUpper u = true ∧ u.isDigit = false ∧ u ≠ '_')
    ∧ FmtFieldNameWith asciiCasing (stringifyFirstChar "email") = "Email"
    ∧ FmtFieldNameWith asciiCasing (stringifyFirstChar "2fa_code") = "TwoFaCode" :=
  ⟨regularCasing_ascii,
   FmtFieldName_first_char_upper asciiCasing regularCasing_ascii "email"
      (Or.inr ⟨'e', ['m', 'a', 'i', 'l'], by decide, by decide⟩),
   FmtFieldName_first_char_upper asciiCasing regularCasing_ascii "_id"
      (Or.inr ⟨'i', ['d'], by decide, by decide⟩),
   FmtFieldName_first_char_upper asciiCasing regularCasing_ascii "2fa_code"
      (Or.inl ⟨'2', ['f', 'a', '_', 'c', 'o', 'd', 'e'], by decide, by decide⟩),
   by decide, by decide⟩

/-- C17: a name whose first character is a decimal digit d has that digit replaced
by the word `intToWordMap[d]`, followed by an underscore, so that the word is a
token of its own: the field name is the capitalised word followed by the field name
of the rest. `intToWordMap` has ten entries, from zero to nine, so the lookup is
defined for every digit; `2fa_code` gives `TwoFaCode` and `0auth_token` gives
`ZeroAuthToken`. -/
theorem stringifyFirstChar_leading_digit (d : Char) (rest : List Char)
    (hd : d.isDigit = true) :
    d.toNat - 48 < intToWordMap.length
    ∧ intToWordMap.length = 10
    ∧ stringifyFirstChar (String.mk (d :: rest))
      = intToWordMap.getD (d.toNat - 48) "" ++ "_" ++ String.mk rest
    ∧ FmtFieldName (stringifyFirstChar (String.mk (d :: rest)))
      = fmtToken (intToWordMap.getD (d.toNat - 48) "") ++ FmtFieldName (String.mk rest)
    ∧ intToWordMap.map fmtToken
      = ["Zero", "One", "Two", "Three", "Four", "Five", "Six", "Seven", "Eight", "Nine"]
    ∧ (['0', '1', '2', '3', '4', '5', '6', '7', '8', '9'].map
        (fun ch => intToWordMap.getD (ch.toNat - 48) ""))
      = ["zero", "one", "two", "three", "four", "five", "six", "seven", "eight", "nine"]
    ∧ FmtFieldName (stringifyFirstChar "2fa_code") = "TwoFaCode"
    ∧ FmtFieldName (stringifyFirstChar "0auth_token") = "ZeroAuthToken" := by
  have hi := isDigit_index d hd
  have hw := fmtToken_digit_word (d.toNat - 48) hi
  refine ⟨hi, rfl, stringifyFirstChar_digit d rest hd, ?_, by decide, by decide, by decide,
    by decide⟩
  rw [stringifyFirstChar_digit d rest hd, FmtFieldName_word _ rest hw.1 hw.2.1]

/-- Witness of C17 on the name `7up`. -/
theorem stringifyFirstChar_leading_digit_witness :
    stringifyFirstChar (String.mk ('7' :: ['u', 'p']))
      = intToWordMap.getD ('7'.toNat - 48) "" ++ "_" ++ String.mk ['u', 'p']
    ∧ FmtFieldName (stringifyFirstChar "7up") = "SevenUp" :=
  ⟨(stringifyFirstChar_leading_digit '7' ['u', 'p'] (by decide)).2.2.1, by decide⟩

/-! ## Further results on the composer and the type mapper -/

/-- C18, as stated, fails: with two declared-length entries for the column email,
its rule list holds two max rules and three rules in all; `columnLength` records
such a pair when its catalog query returns two rows for the column name. -/
theorem validateRules_two_max_rules :
    validateRules asciiEnv [⟨"email", 255⟩, ⟨"email", 100⟩] ⟨"email", "VARCHAR", false⟩
      = ["required", "max=255", "max=100"]
    ∧ generateFieldsTypes asciiEnv [⟨"email", "VARCHAR", false⟩] []
        [⟨"email", 255⟩, ⟨"email", 100⟩] false false false true
      = ["Email string `validate:\"required,max=255,max=100\"`"]
    ∧ columnLength asciiEnv [("email", "varchar(255)"), ("email", "varchar(100)")]
        [⟨"email", "VARCHAR", false⟩]
      = some [⟨"email", 255⟩, ⟨"email", 100⟩] := by
  decide

/-- C18, amended: the rule list of a column holds, after the optional `required`,
one max rule for each declared-length entry whose name equals the lower-cased column
name when the lower-cased type is varchar, and none otherwise; hence at most one max
rule, and at most two rules in all, when the declared-length list holds at most one
entry of that name. -/
theorem validateRules_length (E : Env) (columnLengths : List ColumnLength)
    (c : ColumnType) :
    (validateRules E columnLengths c).length
      = (if c.nullable = false ∧ E.ToLower c.name ≠ "created_at"
            ∧ E.ToLower c.name ≠ "updated_at" then 1 else 0)
        + (if E.ToLower c.databaseTypeName = "varchar" then
            columnLengths.countP (fun ci => decide (ci.ColumnName = E.ToLower c.name))
          else 0)
    ∧ (columnLengths.countP (fun ci => decide (ci.ColumnName = E.ToLower c.name)) ≤ 1 →
        (validateRules E columnLengths c).length ≤ 2
        ∧ ∃ maxRules : List String, maxRules.length ≤ 1
          ∧ validateRules E columnLengths c
            = (if c.nullable = false ∧ E.ToLower c.name ≠ "created_at"
                ∧ E.ToLower c.name ≠ "updated_at" then ["required"] else []) ++ maxRules
          ∧ ∀ r ∈ maxRules, ∃ N : Int, r = "max=" ++ formatInt N) := by
  have hlen : (validateRules E columnLengths c).length
      = (if c.nullable = false ∧ E.ToLower c.name ≠ "created_at"
            ∧ E.ToLower c.name ≠ "updated_at" then 1 else 0)
        + (if E.ToLower c.databaseTypeName = "varchar" then
            columnLengths.countP (fun ci => decide (ci.ColumnName = E.ToLower c.name))
          else 0) := by
    rw [validateRules_eq, List.length_append]
    congr 1
    · split_ifs <;> rfl
    · split_ifs
      · rw [List.length_map, List.countP_eq_length_filter]
      · rfl
  refine ⟨hlen, ?_⟩
  intro hcount
  refine ⟨?_, ?_⟩
  · rw [hlen]
    split_ifs <;> omega
  · refine ⟨if E.ToLower c.databaseTypeName = "varchar" then
        (columnLengths.filter (fun ci => decide (ci.ColumnName = E.ToLower c.name))).map
          (fun ci => "max=" ++ formatInt ci.Length)
      else [], ?_, validateRules_eq E columnLengths c, ?_⟩
    · split_ifs
      · rw [List.length_map, ← List.countP_eq_length_filter]
        exact hcount
      · simp
    · intro r hr
      split_ifs at hr
      · obtain ⟨ci, -, hci⟩ := List.mem_map.1 hr
        exact ⟨ci.Length, hci.symm⟩
      · cases hr

/-- Witness of the amended C18 on the column email with one declared length. -/
theorem validateRules_length_witness :
    ([⟨"email", 255⟩, ⟨"id", 11⟩] : List ColumnLength).countP
        (fun ci => decide (ci.ColumnName = asciiEnv.ToLower "email")) ≤ 1
    ∧ (validateRules asciiEnv [⟨"email", 255⟩, ⟨"id", 11⟩]
        ⟨"email", "VARCHAR", false⟩).length ≤ 2
    ∧ validateRules asciiEnv [⟨"email", 255⟩, ⟨"id", 11⟩] ⟨"email", "VARCHAR", false⟩
      = ["required", "max=255"] :=
  ⟨by decide,
   ((validateRules_length asciiEnv [⟨"email", 255⟩, ⟨"id", 11⟩]
      ⟨"email", "VARCHAR", false⟩).2 (by decide)).1,
   by decide⟩

/-- C19: every result of `sqlTypeToGoType` is the empty string or one of fourteen
type names; it is never the constant `golangFloat`, that is `float`. -/
theorem sqlTypeToGoType_result_names (s : String) (nullable gureguTypes : Bool) :
    sqlTypeToGoType s nullable gureguTypes
      ∈ ["", "int", "int64", "float32", "float64", "string", "[]byte", "time.Time",
         "null.Int", "null.Float", "null.String", "null.Time", "sql.NullInt64",
         "sql.NullFloat64", "sql.NullString"]
    ∧ sqlTypeToGoType s nullable gureguTypes ≠ golangFloat
    ∧ golangFloat = "float"
    ∧ ["int", "int64", "float32", "float64", "string", "[]byte", "time.Time",
       "null.Int", "null.Float", "null.String", "null.Time", "sql.NullInt64",
       "sql.NullFloat64", "sql.NullString"].length = 14 := by
  have hmem : sqlTypeToGoType s nullable gureguTypes
      ∈ ["", "int", "int64", "float32", "float64", "string", "[]byte", "time.Time",
         "null.Int", "null.Float", "null.String", "null.Time", "sql.NullInt64",
         "sql.NullFloat64", "sql.NullString"] := by
    unfold sqlTypeToGoType
    split_ifs <;> decide
  refine ⟨hmem, ?_, rfl, rfl⟩
  intro hfloat
  rw [hfloat] at hmem
  exact absurd hmem (by decide)

/-- C20: `generateFieldsTypes` distributes over the concatenation of column lists,
and the result of the loop does not depend on the value the variable `field` holds
when the loop starts: from any state the loop appends the declarations of the
columns to `fields`. -/
theorem generateFieldsTypes_append (E : Env) (xs ys : List ColumnType)
    (primaryKeys : List String) (columnLengths : List ColumnLength)
    (j g gureguTypes v : Bool) :
    generateFieldsTypes E (xs ++ ys) primaryKeys columnLengths j g gureguTypes v
      = generateFieldsTypes E xs primaryKeys columnLengths j g gureguTypes v
        ++ generateFieldsTypes E ys primaryKeys columnLengths j g gureguTypes v
    ∧ (∀ st : LoopState,
        (xs.foldl (loopBody E primaryKeys columnLengths j g gureguTypes v) st).fields
          = st.fields
            ++ generateFieldsTypes E xs primaryKeys columnLengths j g gureguTypes v)
    ∧ (∀ (fields : List String) (field1 field2 : String),
        (xs.foldl (loopBody E primaryKeys columnLengths j g gureguTypes v)
            ⟨fields, field1⟩).fields
          = (xs.foldl (loopBody E primaryKeys columnLengths j g gureguTypes v)
            ⟨fields, field2⟩).fields) := by
  refine ⟨?_, ?_, ?_⟩
  · simp only [generateFieldsTypes_eq_map_filter, List.filter_append, List.map_append]
  · intro st
    rw [foldl_loopBody_fields, generateFieldsTypes_eq_map_filter]
  · intro fields field1 field2
    rw [foldl_loopBody_fields, foldl_loopBody_fields]


end Dbmeta
